import Mathlib

/-!
Verification of the aezeed cipher-seed decoder (`btcrecover/aezeed.py`).

This file gives a shallow embedding of the Python source into Lean:
bytes are `Nat`s (kept below 256 at the call sites that need it),
byte strings and 16-byte blocks are `List Nat`, and every mutating
Python routine becomes a pure function returning its updated buffers.
Python `bytearray` slice reads (`dst[a:b]`) produce fresh copies, while
slice assignment (`dst[a:b] = xs`) mutates in place; the embedding
models slice assignment with `splice` and is careful to preserve the
copy semantics of slice reads (see `AEZState.aez_core`).

Definitions are translated from the source.  The only definitions
translated from the specification's words instead are explicitly marked
(`aez_decrypt_spec`, used to state the refinement claim about the
decrypt driver).
-/

set_option maxRecDepth 10000

abbrev Bytes := List Nat

/-- Model of `_mk_block()` / `ZERO_BLOCK`: an all-zero 16-byte block. -/
def zeroBlock : Bytes := List.replicate 16 0

/-- Python slice assignment `dst[a:b] = xs` (for `a ≤ b ≤ |dst|`, `|xs| = b - a`). -/
def splice (dst : Bytes) (a b : Nat) (xs : Bytes) : Bytes :=
  dst.take a ++ xs ++ dst.drop b

/-- Model of `_xor_bytes1x16(a, b, dst)`: `dst[i] = a[i] ^ b[i]` for `i < 16`. -/
def xorBytes1x16 (a b : Bytes) : Bytes :=
  (List.range 16).map fun i => a.getD i 0 ^^^ b.getD i 0

/-- Model of `_xor_bytes4x16(a, b, c, d, dst)`. -/
def xorBytes4x16 (a b c d : Bytes) : Bytes :=
  (List.range 16).map fun i => a.getD i 0 ^^^ b.getD i 0 ^^^ c.getD i 0 ^^^ d.getD i 0

/-- Model of `int.from_bytes(xs, "big")` on a list of bytes. -/
def intFromBytesBE (xs : Bytes) : Nat :=
  xs.foldl (fun acc b => acc * 256 + b) 0

/-- Model of `v.to_bytes(4, "big")` (call sites mask `v` to 32 bits first). -/
def uint32be (v : Nat) : Bytes :=
  [(v >>> 24) % 256, (v >>> 16) % 256, (v >>> 8) % 256, v % 256]

/-- Model of `_double_block(p)` (in-place GF(2^128) doubling, AEZ big-endian
bit convention).  The Python loop writes `p[i]` after reading `p[i]` and
`p[i+1]`, and every read sees the original value, so the loop is the pure
map below; `tmp` is the original `p[0]`. -/
def doubleBlock (p : Bytes) : Bytes :=
  (List.range 15).map
    (fun i => ((p.getD i 0 <<< 1) ||| (p.getD (i + 1) 0 >>> 7)) &&& 255)
  ++ [((p.getD 15 0 <<< 1) &&& 0xFE) ^^^ (if p.getD 0 0 &&& 0x80 ≠ 0 then 0x87 else 0)]

/-- Loop body accumulator of `_mult_block`: repeated double-and-add over the
bits of `x`, scanning from the least significant bit. -/
def multBlockGo (x : Nat) (t r : Bytes) : Bytes :=
  if x = 0 then r
  else
    multBlockGo (x >>> 1) (doubleBlock t)
      (if x &&& 1 ≠ 0 then xorBytes1x16 r t else r)
termination_by x
decreasing_by
  simp only [Nat.shiftRight_eq_div_pow, pow_one]
  exact Nat.div_lt_self (Nat.pos_of_ne_zero (by assumption)) one_lt_two

/-- Model of `_mult_block(x, src, dst)`: `t` starts as a copy of `src` and
`r` as the zero block. -/
def multBlock (x : Nat) (src : Bytes) : Bytes :=
  multBlockGo x src zeroBlock

/-- Model of `_one_zero_pad(src, size, dst)`: first `size` bytes of `src`,
then a `0x80` byte, then zeros, in a 16-byte block. -/
def oneZeroPad (src : Bytes) (size : Nat) : Bytes :=
  ((src.take size) ++ List.replicate (16 - size) 0).set size 0x80

/-- Model of `_extract_key`: identity on 48-byte keys, otherwise BLAKE2b-48.
BLAKE2b lives in Python's `hashlib` (outside this repository), so it is an
oracle parameter. -/
def extractKey (blake2b48 : Bytes → Bytes) (key : Bytes) : Bytes :=
  if key.length = 48 then key else blake2b48 key

/-- The CRC32C (Castagnoli) polynomial constant `_CRC32C_POLY`. -/
def CRC32C_POLY : Nat := 0x82F63B78

/-- One bit step of the `_crc32c_table` inner loop. -/
def crc32cBit (crc : Nat) : Nat :=
  if crc &&& 1 ≠ 0 then (crc >>> 1) ^^^ CRC32C_POLY else crc >>> 1

/-- Model of `_crc32c_table()`: the 256-entry table of the reflected
Castagnoli CRC, each entry masked to 32 bits. -/
def crc32cTable : Bytes :=
  (List.range 256).map fun i =>
    (crc32cBit (crc32cBit (crc32cBit (crc32cBit
      (crc32cBit (crc32cBit (crc32cBit (crc32cBit i)))))))) &&& 0xFFFFFFFF

/-- Model of Python `(~crc) & 0xFFFFFFFF` (two's-complement NOT, masked). -/
def pyNot32 (crc : Nat) : Nat :=
  (((-(crc : Int)) - 1) % (2 ^ 32 : Int)).toNat

/-- Model of `_crc32c(data)`: table-driven reflected CRC32C with initial
value `0xFFFFFFFF` and final XOR `0xFFFFFFFF`. -/
def crc32c (data : Bytes) : Nat :=
  pyNot32 (data.foldl
    (fun crc b => crc32cTable.getD ((crc ^^^ b) &&& 0xFF) 0 ^^^ (crc >>> 8))
    0xFFFFFFFF)
/-- The AES T-table `TE0` from the source, verbatim. -/
def TE0 : Bytes := [
  0xc66363a5, 0xf87c7c84, 0xee777799, 0xf67b7b8d, 0xfff2f20d, 0xd66b6bbd, 0xde6f6fb1, 0x91c5c554,
  0x60303050, 0x02010103, 0xce6767a9, 0x562b2b7d, 0xe7fefe19, 0xb5d7d762, 0x4dababe6, 0xec76769a,
  0x8fcaca45, 0x1f82829d, 0x89c9c940, 0xfa7d7d87, 0xeffafa15, 0xb25959eb, 0x8e4747c9, 0xfbf0f00b,
  0x41adadec, 0xb3d4d467, 0x5fa2a2fd, 0x45afafea, 0x239c9cbf, 0x53a4a4f7, 0xe4727296, 0x9bc0c05b,
  0x75b7b7c2, 0xe1fdfd1c, 0x3d9393ae, 0x4c26266a, 0x6c36365a, 0x7e3f3f41, 0xf5f7f702, 0x83cccc4f,
  0x6834345c, 0x51a5a5f4, 0xd1e5e534, 0xf9f1f108, 0xe2717193, 0xabd8d873, 0x62313153, 0x2a15153f,
  0x0804040c, 0x95c7c752, 0x46232365, 0x9dc3c35e, 0x30181828, 0x379696a1, 0x0a05050f, 0x2f9a9ab5,
  0x0e070709, 0x24121236, 0x1b80809b, 0xdfe2e23d, 0xcdebeb26, 0x4e272769, 0x7fb2b2cd, 0xea75759f,
  0x1209091b, 0x1d83839e, 0x582c2c74, 0x341a1a2e, 0x361b1b2d, 0xdc6e6eb2, 0xb45a5aee, 0x5ba0a0fb,
  0xa45252f6, 0x763b3b4d, 0xb7d6d661, 0x7db3b3ce, 0x5229297b, 0xdde3e33e, 0x5e2f2f71, 0x13848497,
  0xa65353f5, 0xb9d1d168, 0x00000000, 0xc1eded2c, 0x40202060, 0xe3fcfc1f, 0x79b1b1c8, 0xb65b5bed,
  0xd46a6abe, 0x8dcbcb46, 0x67bebed9, 0x7239394b, 0x944a4ade, 0x984c4cd4, 0xb05858e8, 0x85cfcf4a,
  0xbbd0d06b, 0xc5efef2a, 0x4faaaae5, 0xedfbfb16, 0x864343c5, 0x9a4d4dd7, 0x66333355, 0x11858594,
  0x8a4545cf, 0xe9f9f910, 0x04020206, 0xfe7f7f81, 0xa05050f0, 0x783c3c44, 0x259f9fba, 0x4ba8a8e3,
  0xa25151f3, 0x5da3a3fe, 0x804040c0, 0x058f8f8a, 0x3f9292ad, 0x219d9dbc, 0x70383848, 0xf1f5f504,
  0x63bcbcdf, 0x77b6b6c1, 0xafdada75, 0x42212163, 0x20101030, 0xe5ffff1a, 0xfdf3f30e, 0xbfd2d26d,
  0x81cdcd4c, 0x180c0c14, 0x26131335, 0xc3ecec2f, 0xbe5f5fe1, 0x359797a2, 0x884444cc, 0x2e171739,
  0x93c4c457, 0x55a7a7f2, 0xfc7e7e82, 0x7a3d3d47, 0xc86464ac, 0xba5d5de7, 0x3219192b, 0xe6737395,
  0xc06060a0, 0x19818198, 0x9e4f4fd1, 0xa3dcdc7f, 0x44222266, 0x542a2a7e, 0x3b9090ab, 0x0b888883,
  0x8c4646ca, 0xc7eeee29, 0x6bb8b8d3, 0x2814143c, 0xa7dede79, 0xbc5e5ee2, 0x160b0b1d, 0xaddbdb76,
  0xdbe0e03b, 0x64323256, 0x743a3a4e, 0x140a0a1e, 0x924949db, 0x0c06060a, 0x4824246c, 0xb85c5ce4,
  0x9fc2c25d, 0xbdd3d36e, 0x43acacef, 0xc46262a6, 0x399191a8, 0x319595a4, 0xd3e4e437, 0xf279798b,
  0xd5e7e732, 0x8bc8c843, 0x6e373759, 0xda6d6db7, 0x018d8d8c, 0xb1d5d564, 0x9c4e4ed2, 0x49a9a9e0,
  0xd86c6cb4, 0xac5656fa, 0xf3f4f407, 0xcfeaea25, 0xca6565af, 0xf47a7a8e, 0x47aeaee9, 0x10080818,
  0x6fbabad5, 0xf0787888, 0x4a25256f, 0x5c2e2e72, 0x381c1c24, 0x57a6a6f1, 0x73b4b4c7, 0x97c6c651,
  0xcbe8e823, 0xa1dddd7c, 0xe874749c, 0x3e1f1f21, 0x964b4bdd, 0x61bdbddc, 0x0d8b8b86, 0x0f8a8a85,
  0xe0707090, 0x7c3e3e42, 0x71b5b5c4, 0xcc6666aa, 0x904848d8, 0x06030305, 0xf7f6f601, 0x1c0e0e12,
  0xc26161a3, 0x6a35355f, 0xae5757f9, 0x69b9b9d0, 0x17868691, 0x99c1c158, 0x3a1d1d27, 0x279e9eb9,
  0xd9e1e138, 0xebf8f813, 0x2b9898b3, 0x22111133, 0xd26969bb, 0xa9d9d970, 0x078e8e89, 0x339494a7,
  0x2d9b9bb6, 0x3c1e1e22, 0x15878792, 0xc9e9e920, 0x87cece49, 0xaa5555ff, 0x50282878, 0xa5dfdf7a,
  0x038c8c8f, 0x59a1a1f8, 0x09898980, 0x1a0d0d17, 0x65bfbfda, 0xd7e6e631, 0x844242c6, 0xd06868b8,
  0x824141c3, 0x299999b0, 0x5a2d2d77, 0x1e0f0f11, 0x7bb0b0cb, 0xa85454fc, 0x6dbbbbd6, 0x2c16163a]

/-- The AES T-table `TE1` from the source, verbatim. -/
def TE1 : Bytes := [
  0xa5c66363, 0x84f87c7c, 0x99ee7777, 0x8df67b7b, 0x0dfff2f2, 0xbdd66b6b, 0xb1de6f6f, 0x5491c5c5,
  0x50603030, 0x03020101, 0xa9ce6767, 0x7d562b2b, 0x19e7fefe, 0x62b5d7d7, 0xe64dabab, 0x9aec7676,
  0x458fcaca, 0x9d1f8282, 0x4089c9c9, 0x87fa7d7d, 0x15effafa, 0xebb25959, 0xc98e4747, 0x0bfbf0f0,
  0xec41adad, 0x67b3d4d4, 0xfd5fa2a2, 0xea45afaf, 0xbf239c9c, 0xf753a4a4, 0x96e47272, 0x5b9bc0c0,
  0xc275b7b7, 0x1ce1fdfd, 0xae3d9393, 0x6a4c2626, 0x5a6c3636, 0x417e3f3f, 0x02f5f7f7, 0x4f83cccc,
  0x5c683434, 0xf451a5a5, 0x34d1e5e5, 0x08f9f1f1, 0x93e27171, 0x73abd8d8, 0x53623131, 0x3f2a1515,
  0x0c080404, 0x5295c7c7, 0x65462323, 0x5e9dc3c3, 0x28301818, 0xa1379696, 0x0f0a0505, 0xb52f9a9a,
  0x090e0707, 0x36241212, 0x9b1b8080, 0x3ddfe2e2, 0x26cdebeb, 0x694e2727, 0xcd7fb2b2, 0x9fea7575,
  0x1b120909, 0x9e1d8383, 0x74582c2c, 0x2e341a1a, 0x2d361b1b, 0xb2dc6e6e, 0xeeb45a5a, 0xfb5ba0a0,
  0xf6a45252, 0x4d763b3b, 0x61b7d6d6, 0xce7db3b3, 0x7b522929, 0x3edde3e3, 0x715e2f2f, 0x97138484,
  0xf5a65353, 0x68b9d1d1, 0x00000000, 0x2cc1eded, 0x60402020, 0x1fe3fcfc, 0xc879b1b1, 0xedb65b5b,
  0xbed46a6a, 0x468dcbcb, 0xd967bebe, 0x4b723939, 0xde944a4a, 0xd4984c4c, 0xe8b05858, 0x4a85cfcf,
  0x6bbbd0d0, 0x2ac5efef, 0xe54faaaa, 0x16edfbfb, 0xc5864343, 0xd79a4d4d, 0x55663333, 0x94118585,
  0xcf8a4545, 0x10e9f9f9, 0x06040202, 0x81fe7f7f, 0xf0a05050, 0x44783c3c, 0xba259f9f, 0xe34ba8a8,
  0xf3a25151, 0xfe5da3a3, 0xc0804040, 0x8a058f8f, 0xad3f9292, 0xbc219d9d, 0x48703838, 0x04f1f5f5,
  0xdf63bcbc, 0xc177b6b6, 0x75afdada, 0x63422121, 0x30201010, 0x1ae5ffff, 0x0efdf3f3, 0x6dbfd2d2,
  0x4c81cdcd, 0x14180c0c, 0x35261313, 0x2fc3ecec, 0xe1be5f5f, 0xa2359797, 0xcc884444, 0x392e1717,
  0x5793c4c4, 0xf255a7a7, 0x82fc7e7e, 0x477a3d3d, 0xacc86464, 0xe7ba5d5d, 0x2b321919, 0x95e67373,
  0xa0c06060, 0x98198181, 0xd19e4f4f, 0x7fa3dcdc, 0x66442222, 0x7e542a2a, 0xab3b9090, 0x830b8888,
  0xca8c4646, 0x29c7eeee, 0xd36bb8b8, 0x3c281414, 0x79a7dede, 0xe2bc5e5e, 0x1d160b0b, 0x76addbdb,
  0x3bdbe0e0, 0x56643232, 0x4e743a3a, 0x1e140a0a, 0xdb924949, 0x0a0c0606, 0x6c482424, 0xe4b85c5c,
  0x5d9fc2c2, 0x6ebdd3d3, 0xef43acac, 0xa6c46262, 0xa8399191, 0xa4319595, 0x37d3e4e4, 0x8bf27979,
  0x32d5e7e7, 0x438bc8c8, 0x596e3737, 0xb7da6d6d, 0x8c018d8d, 0x64b1d5d5, 0xd29c4e4e, 0xe049a9a9,
  0xb4d86c6c, 0xfaac5656, 0x07f3f4f4, 0x25cfeaea, 0xafca6565, 0x8ef47a7a, 0xe947aeae, 0x18100808,
  0xd56fbaba, 0x88f07878, 0x6f4a2525, 0x725c2e2e, 0x24381c1c, 0xf157a6a6, 0xc773b4b4, 0x5197c6c6,
  0x23cbe8e8, 0x7ca1dddd, 0x9ce87474, 0x213e1f1f, 0xdd964b4b, 0xdc61bdbd, 0x860d8b8b, 0x850f8a8a,
  0x90e07070, 0x427c3e3e, 0xc471b5b5, 0xaacc6666, 0xd8904848, 0x05060303, 0x01f7f6f6, 0x121c0e0e,
  0xa3c26161, 0x5f6a3535, 0xf9ae5757, 0xd069b9b9, 0x91178686, 0x5899c1c1, 0x273a1d1d, 0xb9279e9e,
  0x38d9e1e1, 0x13ebf8f8, 0xb32b9898, 0x33221111, 0xbbd26969, 0x70a9d9d9, 0x89078e8e, 0xa7339494,
  0xb62d9b9b, 0x223c1e1e, 0x92158787, 0x20c9e9e9, 0x4987cece, 0xffaa5555, 0x78502828, 0x7aa5dfdf,
  0x8f038c8c, 0xf859a1a1, 0x80098989, 0x171a0d0d, 0xda65bfbf, 0x31d7e6e6, 0xc6844242, 0xb8d06868,
  0xc3824141, 0xb0299999, 0x775a2d2d, 0x111e0f0f, 0xcb7bb0b0, 0xfca85454, 0xd66dbbbb, 0x3a2c1616]

/-- The AES T-table `TE2` from the source, verbatim. -/
def TE2 : Bytes := [
  0x63a5c663, 0x7c84f87c, 0x7799ee77, 0x7b8df67b, 0xf20dfff2, 0x6bbdd66b, 0x6fb1de6f, 0xc55491c5,
  0x30506030, 0x01030201, 0x67a9ce67, 0x2b7d562b, 0xfe19e7fe, 0xd762b5d7, 0xabe64dab, 0x769aec76,
  0xca458fca, 0x829d1f82, 0xc94089c9, 0x7d87fa7d, 0xfa15effa, 0x59ebb259, 0x47c98e47, 0xf00bfbf0,
  0xadec41ad, 0xd467b3d4, 0xa2fd5fa2, 0xafea45af, 0x9cbf239c, 0xa4f753a4, 0x7296e472, 0xc05b9bc0,
  0xb7c275b7, 0xfd1ce1fd, 0x93ae3d93, 0x266a4c26, 0x365a6c36, 0x3f417e3f, 0xf702f5f7, 0xcc4f83cc,
  0x345c6834, 0xa5f451a5, 0xe534d1e5, 0xf108f9f1, 0x7193e271, 0xd873abd8, 0x31536231, 0x153f2a15,
  0x040c0804, 0xc75295c7, 0x23654623, 0xc35e9dc3, 0x18283018, 0x96a13796, 0x050f0a05, 0x9ab52f9a,
  0x07090e07, 0x12362412, 0x809b1b80, 0xe23ddfe2, 0xeb26cdeb, 0x27694e27, 0xb2cd7fb2, 0x759fea75,
  0x091b1209, 0x839e1d83, 0x2c74582c, 0x1a2e341a, 0x1b2d361b, 0x6eb2dc6e, 0x5aeeb45a, 0xa0fb5ba0,
  0x52f6a452, 0x3b4d763b, 0xd661b7d6, 0xb3ce7db3, 0x297b5229, 0xe33edde3, 0x2f715e2f, 0x84971384,
  0x53f5a653, 0xd168b9d1, 0x00000000, 0xed2cc1ed, 0x20604020, 0xfc1fe3fc, 0xb1c879b1, 0x5bedb65b,
  0x6abed46a, 0xcb468dcb, 0xbed967be, 0x394b7239, 0x4ade944a, 0x4cd4984c, 0x58e8b058, 0xcf4a85cf,
  0xd06bbbd0, 0xef2ac5ef, 0xaae54faa, 0xfb16edfb, 0x43c58643, 0x4dd79a4d, 0x33556633, 0x85941185,
  0x45cf8a45, 0xf910e9f9, 0x02060402, 0x7f81fe7f, 0x50f0a050, 0x3c44783c, 0x9fba259f, 0xa8e34ba8,
  0x51f3a251, 0xa3fe5da3, 0x40c08040, 0x8f8a058f, 0x92ad3f92, 0x9dbc219d, 0x38487038, 0xf504f1f5,
  0xbcdf63bc, 0xb6c177b6, 0xda75afda, 0x21634221, 0x10302010, 0xff1ae5ff, 0xf30efdf3, 0xd26dbfd2,
  0xcd4c81cd, 0x0c14180c, 0x13352613, 0xec2fc3ec, 0x5fe1be5f, 0x97a23597, 0x44cc8844, 0x17392e17,
  0xc45793c4, 0xa7f255a7, 0x7e82fc7e, 0x3d477a3d, 0x64acc864, 0x5de7ba5d, 0x192b3219, 0x7395e673,
  0x60a0c060, 0x81981981, 0x4fd19e4f, 0xdc7fa3dc, 0x22664422, 0x2a7e542a, 0x90ab3b90, 0x88830b88,
  0x46ca8c46, 0xee29c7ee, 0xb8d36bb8, 0x143c2814, 0xde79a7de, 0x5ee2bc5e, 0x0b1d160b, 0xdb76addb,
  0xe03bdbe0, 0x32566432, 0x3a4e743a, 0x0a1e140a, 0x49db9249, 0x060a0c06, 0x246c4824, 0x5ce4b85c,
  0xc25d9fc2, 0xd36ebdd3, 0xacef43ac, 0x62a6c462, 0x91a83991, 0x95a43195, 0xe437d3e4, 0x798bf279,
  0xe732d5e7, 0xc8438bc8, 0x37596e37, 0x6db7da6d, 0x8d8c018d, 0xd564b1d5, 0x4ed29c4e, 0xa9e049a9,
  0x6cb4d86c, 0x56faac56, 0xf407f3f4, 0xea25cfea, 0x65afca65, 0x7a8ef47a, 0xaee947ae, 0x08181008,
  0xbad56fba, 0x7888f078, 0x256f4a25, 0x2e725c2e, 0x1c24381c, 0xa6f157a6, 0xb4c773b4, 0xc65197c6,
  0xe823cbe8, 0xdd7ca1dd, 0x749ce874, 0x1f213e1f, 0x4bdd964b, 0xbddc61bd, 0x8b860d8b, 0x8a850f8a,
  0x7090e070, 0x3e427c3e, 0xb5c471b5, 0x66aacc66, 0x48d89048, 0x03050603, 0xf601f7f6, 0x0e121c0e,
  0x61a3c261, 0x355f6a35, 0x57f9ae57, 0xb9d069b9, 0x86911786, 0xc15899c1, 0x1d273a1d, 0x9eb9279e,
  0xe138d9e1, 0xf813ebf8, 0x98b32b98, 0x11332211, 0x69bbd269, 0xd970a9d9, 0x8e89078e, 0x94a73394,
  0x9bb62d9b, 0x1e223c1e, 0x87921587, 0xe920c9e9, 0xce4987ce, 0x55ffaa55, 0x28785028, 0xdf7aa5df,
  0x8c8f038c, 0xa1f859a1, 0x89800989, 0x0d171a0d, 0xbfda65bf, 0xe631d7e6, 0x42c68442, 0x68b8d068,
  0x41c38241, 0x99b02999, 0x2d775a2d, 0x0f111e0f, 0xb0cb7bb0, 0x54fca854, 0xbbd66dbb, 0x163a2c16]

/-- The AES T-table `TE3` from the source, verbatim. -/
def TE3 : Bytes := [
  0x6363a5c6, 0x7c7c84f8, 0x777799ee, 0x7b7b8df6, 0xf2f20dff, 0x6b6bbdd6, 0x6f6fb1de, 0xc5c55491,
  0x30305060, 0x01010302, 0x6767a9ce, 0x2b2b7d56, 0xfefe19e7, 0xd7d762b5, 0xababe64d, 0x76769aec,
  0xcaca458f, 0x82829d1f, 0xc9c94089, 0x7d7d87fa, 0xfafa15ef, 0x5959ebb2, 0x4747c98e, 0xf0f00bfb,
  0xadadec41, 0xd4d467b3, 0xa2a2fd5f, 0xafafea45, 0x9c9cbf23, 0xa4a4f753, 0x727296e4, 0xc0c05b9b,
  0xb7b7c275, 0xfdfd1ce1, 0x9393ae3d, 0x26266a4c, 0x36365a6c, 0x3f3f417e, 0xf7f702f5, 0xcccc4f83,
  0x34345c68, 0xa5a5f451, 0xe5e534d1, 0xf1f108f9, 0x717193e2, 0xd8d873ab, 0x31315362, 0x15153f2a,
  0x04040c08, 0xc7c75295, 0x23236546, 0xc3c35e9d, 0x18182830, 0x9696a137, 0x05050f0a, 0x9a9ab52f,
  0x0707090e, 0x12123624, 0x80809b1b, 0xe2e23ddf, 0xebeb26cd, 0x2727694e, 0xb2b2cd7f, 0x75759fea,
  0x09091b12, 0x83839e1d, 0x2c2c7458, 0x1a1a2e34, 0x1b1b2d36, 0x6e6eb2dc, 0x5a5aeeb4, 0xa0a0fb5b,
  0x5252f6a4, 0x3b3b4d76, 0xd6d661b7, 0xb3b3ce7d, 0x29297b52, 0xe3e33edd, 0x2f2f715e, 0x84849713,
  0x5353f5a6, 0xd1d168b9, 0x00000000, 0xeded2cc1, 0x20206040, 0xfcfc1fe3, 0xb1b1c879, 0x5b5bedb6,
  0x6a6abed4, 0xcbcb468d, 0xbebed967, 0x39394b72, 0x4a4ade94, 0x4c4cd498, 0x5858e8b0, 0xcfcf4a85,
  0xd0d06bbb, 0xefef2ac5, 0xaaaae54f, 0xfbfb16ed, 0x4343c586, 0x4d4dd79a, 0x33335566, 0x85859411,
  0x4545cf8a, 0xf9f910e9, 0x02020604, 0x7f7f81fe, 0x5050f0a0, 0x3c3c4478, 0x9f9fba25, 0xa8a8e34b,
  0x5151f3a2, 0xa3a3fe5d, 0x4040c080, 0x8f8f8a05, 0x9292ad3f, 0x9d9dbc21, 0x38384870, 0xf5f504f1,
  0xbcbcdf63, 0xb6b6c177, 0xdada75af, 0x21216342, 0x10103020, 0xffff1ae5, 0xf3f30efd, 0xd2d26dbf,
  0xcdcd4c81, 0x0c0c1418, 0x13133526, 0xecec2fc3, 0x5f5fe1be, 0x9797a235, 0x4444cc88, 0x1717392e,
  0xc4c45793, 0xa7a7f255, 0x7e7e82fc, 0x3d3d477a, 0x6464acc8, 0x5d5de7ba, 0x19192b32, 0x737395e6,
  0x6060a0c0, 0x81819819, 0x4f4fd19e, 0xdcdc7fa3, 0x22226644, 0x2a2a7e54, 0x9090ab3b, 0x8888830b,
  0x4646ca8c, 0xeeee29c7, 0xb8b8d36b, 0x14143c28, 0xdede79a7, 0x5e5ee2bc, 0x0b0b1d16, 0xdbdb76ad,
  0xe0e03bdb, 0x32325664, 0x3a3a4e74, 0x0a0a1e14, 0x4949db92, 0x06060a0c, 0x24246c48, 0x5c5ce4b8,
  0xc2c25d9f, 0xd3d36ebd, 0xacacef43, 0x6262a6c4, 0x9191a839, 0x9595a431, 0xe4e437d3, 0x79798bf2,
  0xe7e732d5, 0xc8c8438b, 0x3737596e, 0x6d6db7da, 0x8d8d8c01, 0xd5d564b1, 0x4e4ed29c, 0xa9a9e049,
  0x6c6cb4d8, 0x5656faac, 0xf4f407f3, 0xeaea25cf, 0x6565afca, 0x7a7a8ef4, 0xaeaee947, 0x08081810,
  0xbabad56f, 0x787888f0, 0x25256f4a, 0x2e2e725c, 0x1c1c2438, 0xa6a6f157, 0xb4b4c773, 0xc6c65197,
  0xe8e823cb, 0xdddd7ca1, 0x74749ce8, 0x1f1f213e, 0x4b4bdd96, 0xbdbddc61, 0x8b8b860d, 0x8a8a850f,
  0x707090e0, 0x3e3e427c, 0xb5b5c471, 0x6666aacc, 0x4848d890, 0x03030506, 0xf6f601f7, 0x0e0e121c,
  0x6161a3c2, 0x35355f6a, 0x5757f9ae, 0xb9b9d069, 0x86869117, 0xc1c15899, 0x1d1d273a, 0x9e9eb927,
  0xe1e138d9, 0xf8f813eb, 0x9898b32b, 0x11113322, 0x6969bbd2, 0xd9d970a9, 0x8e8e8907, 0x9494a733,
  0x9b9bb62d, 0x1e1e223c, 0x87879215, 0xe9e920c9, 0xcece4987, 0x5555ffaa, 0x28287850, 0xdfdf7aa5,
  0x8c8c8f03, 0xa1a1f859, 0x89898009, 0x0d0d171a, 0xbfbfda65, 0xe6e631d7, 0x4242c684, 0x6868b8d0,
  0x4141c382, 0x9999b029, 0x2d2d775a, 0x0f0f111e, 0xb0b0cb7b, 0x5454fca8, 0xbbbbd66d, 0x16163a2c]

/-- Model of `_read_uint32_be(block, offset)`. -/
def readUInt32BE (block : Bytes) (off : Nat) : Nat :=
  intFromBytesBE ((block.drop off).take 4)

/-- Model of `_uint8`. -/
def uint8 (i : Nat) : Nat := i &&& 0xFF

/-- Model of `_uint32`. -/
def uint32 (i : Nat) : Nat := i &&& 0xFFFFFFFF

/-- The two AES key schedules of `_AESRound.__init__`, built from the twelve
big-endian 32-bit words of the 48-byte extracted key.  The last four words
of the 16-word 4-round schedule are never assigned and stay zero. -/
structure AESRound where
  aes10_key : List Nat
  aes4_key : List Nat

/-- Model of `_AESRound.__init__(key)`. -/
def mkAESRound (key : Bytes) : AESRound :=
  let words := (List.range 12).map fun i => readUInt32BE key (4 * i)
  { aes10_key := words ++ words ++ words ++ words.take 4
    aes4_key := (words.drop 4).take 4 ++ words.take 4 ++ (words.drop 8).take 4
      ++ [0, 0, 0, 0] }

/-- One round of `_AESRound.rounds`: the T-table lookups with round keys
`keys[4r .. 4r+4)`, each result masked to 32 bits (`_uint32`). -/
def aesRoundStep (keys : List Nat) (r : Nat) (s : Nat × Nat × Nat × Nat) :
    Nat × Nat × Nat × Nat :=
  let (s0, s1, s2, s3) := s
  let off := r * 4
  let t0 := TE0.getD (uint8 (s0 >>> 24)) 0 ^^^ TE1.getD (uint8 (s1 >>> 16)) 0 ^^^
    TE2.getD (uint8 (s2 >>> 8)) 0 ^^^ TE3.getD (uint8 s3) 0 ^^^ keys.getD off 0
  let t1 := TE0.getD (uint8 (s1 >>> 24)) 0 ^^^ TE1.getD (uint8 (s2 >>> 16)) 0 ^^^
    TE2.getD (uint8 (s3 >>> 8)) 0 ^^^ TE3.getD (uint8 s0) 0 ^^^ keys.getD (off + 1) 0
  let t2 := TE0.getD (uint8 (s2 >>> 24)) 0 ^^^ TE1.getD (uint8 (s3 >>> 16)) 0 ^^^
    TE2.getD (uint8 (s0 >>> 8)) 0 ^^^ TE3.getD (uint8 s1) 0 ^^^ keys.getD (off + 2) 0
  let t3 := TE0.getD (uint8 (s3 >>> 24)) 0 ^^^ TE1.getD (uint8 (s0 >>> 16)) 0 ^^^
    TE2.getD (uint8 (s1 >>> 8)) 0 ^^^ TE3.getD (uint8 s2) 0 ^^^ keys.getD (off + 3) 0
  (uint32 t0, uint32 t1, uint32 t2, uint32 t3)

/-- Model of `_AESRound.rounds(block, rounds)`: load four big-endian words,
iterate `aesRoundStep`, store them back (overwriting all 16 bytes). -/
def aesRounds (keys : List Nat) (rounds : Nat) (block : Bytes) : Bytes :=
  let s := (List.range rounds).foldl (fun st r => aesRoundStep keys r st)
    (readUInt32BE block 0, readUInt32BE block 4, readUInt32BE block 8,
      readUInt32BE block 12)
  uint32be s.1 ++ uint32be s.2.1 ++ uint32be s.2.2.1 ++ uint32be s.2.2.2
    ++ block.drop 16

/-- Model of `_AESRound.AES4(j, i_vec, l_vec, src, dst)`. -/
def AES4 (a : AESRound) (j i_vec l_vec src : Bytes) : Bytes :=
  aesRounds a.aes4_key 4 (xorBytes4x16 j i_vec l_vec src)

/-- Model of `_AESRound.AES10(l_vec, src, dst)`. -/
def AES10 (a : AESRound) (l_vec src : Bytes) : Bytes :=
  aesRounds a.aes10_key 10 (xorBytes1x16 src l_vec)

/-- Model of `_AEZState`: the `I`, `J`, `L` tweak blocks plus the AES
round-key context. -/
structure AEZState where
  I : List Bytes
  J : List Bytes
  L : List Bytes
  aes : AESRound

/-- Model of `_AEZState.init(key)` on a freshly reset state (`I`, `J`, `L`
all zero): the fields not assigned by `init` (only `L[0]`) stay zero. -/
def AEZState.init (blake2b48 : Bytes → Bytes) (key : Bytes) : AEZState :=
  let extracted := extractKey blake2b48 key
  let i0 := extracted.take 16
  let i1 := multBlock 2 i0
  let j0 := (extracted.drop 16).take 16
  let j1 := multBlock 2 j0
  let j2 := multBlock 2 j1
  let l1 := (extracted.drop 32).take 16
  let l2 := multBlock 2 l1
  let l3 := xorBytes1x16 l2 l1
  let l4 := multBlock 2 l2
  let l5 := xorBytes1x16 l4 l1
  let l6 := multBlock 2 l3
  let l7 := xorBytes1x16 l6 l1
  { I := [i0, i1], J := [j0, j1, j2],
    L := [zeroBlock, l1, l2, l3, l4, l5, l6, l7],
    aes := mkAESRound extracted }

/-- The block-absorbing `while` loop shared by the nonce and AD branches of
`_AEZState.aez_hash` (the source repeats it verbatim for each): absorb
16-byte blocks of `piece` with tweak `Jv`, doubling `I_tmp` whenever the
running index `i` hits a multiple of 8 (checked before `i += 1`).
Returns the accumulated sum together with the final `offset` and byte
count left. -/
def hashBlocksGo (st : AEZState) (Jv piece : Bytes) (I_tmp sum : Bytes)
    (offset n_bytes i : Nat) : Bytes × Nat × Nat :=
  if _h : n_bytes ≥ 16 then
    let tmp := (piece.drop offset).take 16
    let buf := AES4 st.aes Jv I_tmp (st.L.getD (i % 8) []) tmp
    let sum1 := xorBytes1x16 sum buf
    let I1 := if i % 8 = 0 then doubleBlock I_tmp else I_tmp
    hashBlocksGo st Jv piece I1 sum1 (offset + 16) (n_bytes - 16) (i + 1)
  else (sum, offset, n_bytes)
termination_by n_bytes
decreasing_by omega

/-- One absorbed string of `_AEZState.aez_hash`: the block loop followed by
the `one_zero_pad` block when a partial block remains or the string is
empty. -/
def hashPiece (st : AEZState) (Jv piece : Bytes) (sum : Bytes) : Bytes :=
  let r := hashBlocksGo st Jv piece (st.I.getD 1 []) sum 0 piece.length 1
  let sum1 := r.1
  let offset := r.2.1
  let nb := r.2.2
  if nb > 0 ∨ piece.length = 0 then
    let buf := oneZeroPad (piece.drop offset) nb
    let buf2 := AES4 st.aes Jv (st.I.getD 0 []) (st.L.getD 0 []) buf
    xorBytes1x16 sum1 buf2
  else sum1

/-- The `for k, piece in enumerate(ad)` loop of `aez_hash`, with
`Jv = mult(5 + k, J[0])` per string. -/
def adGo (st : AEZState) : List Bytes → Nat → Bytes → Bytes
  | [], _, sum => sum
  | piece :: rest, k, sum =>
    adGo st rest (k + 1) (hashPiece st (multBlock (5 + k) (st.J.getD 0 [])) piece sum)

/-- Model of `_AEZState.aez_hash(nonce, ad, tau)`. -/
def AEZState.aez_hash (st : AEZState) (nonce : Option Bytes) (ad : List Bytes)
    (tau : Nat) : Bytes :=
  let buf := splice zeroBlock 12 16 (uint32be (uint32 tau))
  let J_tmp := xorBytes1x16 (st.J.getD 0 []) (st.J.getD 1 [])
  let sum0 := AES4 st.aes J_tmp (st.I.getD 1 []) (st.L.getD 1 []) buf
  let sum1 := hashPiece st (st.J.getD 2 []) (nonce.getD []) sum0
  adGo st ad 0 sum1

/-- The counter increment of `aez_prf` (`for idx in range(15, -1, -1)` with
early `break` on a nonzero byte). -/
def ctrIncGo (ctr : Bytes) (idx : Nat) : Bytes :=
  let v := (ctr.getD idx 0 + 1) &&& 0xFF
  let ctr1 := ctr.set idx v
  if v ≠ 0 then ctr1
  else match idx with
    | 0 => ctr1
    | i + 1 => ctrIncGo ctr1 i

/-- Counter increment starting at byte 15. -/
def ctrInc (ctr : Bytes) : Bytes := ctrIncGo ctr 15

/-- The block loop of `_AEZState.aez_prf`. -/
def prfGo (st : AEZState) (delta : Bytes) (dst ctr : Bytes) (off remaining : Nat) :
    Bytes :=
  if _h : remaining ≥ 16 then
    let buf := AES10 st.aes (st.L.getD 3 []) (xorBytes1x16 delta ctr)
    prfGo st delta (splice dst off (off + 16) buf) (ctrInc ctr) (off + 16)
      (remaining - 16)
  else if remaining > 0 then
    let buf := AES10 st.aes (st.L.getD 3 []) (xorBytes1x16 delta ctr)
    splice dst off (off + remaining) (buf.take remaining)
  else dst
termination_by remaining
decreasing_by omega

/-- Model of `_AEZState.aez_prf(delta, tau, dst)`. -/
def AEZState.aez_prf (st : AEZState) (delta : Bytes) (tau : Nat) (dst : Bytes) :
    Bytes :=
  prfGo st delta dst zeroBlock 0 tau

/-- Python `j & 0xFF` on an `int` that may be negative (`j & 0xFF` equals the
Euclidean remainder `j mod 256`). -/
def intByte (j : Int) : Nat := (j % 256).toNat

/-- The Feistel round function of `_AEZState.aez_tiny`: build the 16-byte
buffer from the first `⌈n/2⌉` bytes of the half `x`, apply the `mask`/`pad`
domain byte at position `n // 2`, XOR `delta`, XOR the round counter into
byte 15, then `AES4(0, I[1], L[idx_param], buf)`. -/
def tinyRF (st : AEZState) (delta : Bytes) (n : Nat) (j : Int) (x : Bytes) : Bytes :=
  let left_len := (n + 1) / 2
  let mid := n / 2
  let mask := if n % 2 = 1 then 0xF0 else 0x00
  let pad := if n % 2 = 1 then 0x08 else 0x80
  let idx_param := if n < 16 then 7 else 6
  let buf0 := x.take left_len ++ List.replicate (16 - left_len) 0
  let buf1 := buf0.set mid ((buf0.getD mid 0 &&& mask) ||| pad)
  let buf2 := xorBytes1x16 buf1 delta
  let buf3 := buf2.set 15 (buf2.getD 15 0 ^^^ intByte j)
  AES4 st.aes zeroBlock (st.I.getD 1 []) (st.L.getD idx_param []) buf3

/-- The `for _ in range(rounds // 2)` Feistel loop of `aez_tiny`, threading
the halves `L`, `R` and the counter `j` (`step` is `+1` when enciphering
and `-1` when deciphering). -/
def tinyLoop (F : Int → Bytes → Bytes) (step : Int) :
    Nat → Bytes × Bytes × Int → Bytes × Bytes × Int
  | 0, s => s
  | c + 1, (L, R, j) =>
    let L1 := xorBytes1x16 L (F j R)
    let R1 := xorBytes1x16 R (F (j + step) L1)
    tinyLoop F step c (L1, R1, j + 2 * step)

/-- The MSB-whitening block of `aez_tiny` (used by the decipher pre-step on
the input and the encipher post-step on the output, both with byte 0
forced to set its top bit): returns `tmp[0] & 0x80`. -/
def whitenW (st : AEZState) (delta : Bytes) (n : Nat) (xs : Bytes) : Nat :=
  let buf := xs.take n ++ List.replicate (16 - n) 0
  let buf1 := buf.set 0 (buf.getD 0 0 ||| 0x80)
  let buf2 := xorBytes1x16 delta buf1
  (AES4 st.aes zeroBlock (st.I.getD 1 []) (st.L.getD 3 []) buf2).getD 0 0 &&& 0x80

/-- The output recombination of `aez_tiny` (lines 573-579): `R`'s first
`n // 2` bytes, then `L`'s first `⌈n/2⌉` bytes; for odd `n` the right part
is shifted back by four bits and the middle byte mixes `L[0] >> 4` with the
high nibble of `R[n // 2]`.  The descending Python shift loop reads only
original values, so it is the pure map below. -/
def recomb (n : Nat) (Lf Rf : Bytes) : Bytes :=
  let half := n / 2
  let left_len := (n + 1) / 2
  let pre := Rf.take half ++ Lf.take left_len
  if n % 2 = 1 then
    (List.range n).map fun k =>
      if k < half then pre.getD k 0
      else if k = half then ((Lf.getD 0 0 >>> 4) &&& 0x0F) ||| (Rf.getD half 0 &&& 0xF0)
      else ((pre.getD k 0 >>> 4) ||| (pre.getD (k - 1) 0 <<< 4)) &&& 255
  else pre

/-- The left Feistel half loaded by `aez_tiny`:
`L[:left_len] = data[:left_len]` in a zeroed 16-byte block. -/
def tinyL0 (data : Bytes) : Bytes :=
  data.take ((data.length + 1) / 2) ++
    List.replicate (16 - (data.length + 1) / 2) 0

/-- The right Feistel half loaded by `aez_tiny`:
`R[:left_len] = data[right_start : right_start + left_len]` in a zeroed
16-byte block, shifted left by four bits over the first `n // 2 + 1`
bytes when `n` is odd (the ascending Python shift loop reads only
original values). -/
def tinyR0 (data : Bytes) : Bytes :=
  let n := data.length
  let left_len := (n + 1) / 2
  let Rraw := (data.drop (n / 2)).take left_len ++
    List.replicate (16 - left_len) 0
  if n % 2 = 1 then
    (List.range 16).map fun k =>
      if k < n / 2 then ((Rraw.getD k 0 <<< 4) ||| (Rraw.getD (k + 1) 0 >>> 4)) &&& 255
      else if k = n / 2 then (Rraw.getD k 0 <<< 4) &&& 255
      else Rraw.getD k 0
  else Rraw

/-- Model of `_AEZState.aez_tiny(delta, data, direction, dst)`.  The halves
`L` and `R` are loaded (`tinyL0`, `tinyR0`) before the
direction-dependent pre-step; the decipher direction whitens `L[0]`'s top
bit first, the encipher direction whitens the output's top bit last. -/
def AEZState.aez_tiny (st : AEZState) (delta data : Bytes) (direction : Nat)
    (dst : Bytes) : Bytes :=
  let n := data.length
  let rounds : Nat := if n = 1 then 24 else if n = 2 then 16 else if n < 16 then 10 else 8
  let L1 := if direction ≠ 0 ∧ n < 16 then
      (tinyL0 data).set 0 ((tinyL0 data).getD 0 0 ^^^ whitenW st delta n data)
    else tinyL0 data
  let j0 : Int := if direction ≠ 0 then (rounds : Int) - 1 else 0
  let step : Int := if direction ≠ 0 then -1 else 1
  let s := tinyLoop (tinyRF st delta n) step (rounds / 2) (L1, tinyR0 data, j0)
  let out := recomb n s.1 s.2.1
  let dst1 := splice dst 0 n out
  if n < 16 ∧ direction = 0 then
    dst1.set 0 (dst1.getD 0 0 ^^^ whitenW st delta n out)
  else dst1

/-- The `while remaining >= 64` loop of `_AEZState.aez_core_pass1`:
`output[offset .. offset+32)` receives the processed pair from
`input_bytes`, and `X` accumulates the second halves.  `output` here is
the caller's `dst` bytearray itself (passed by reference), so these slice
assignments are the only writes of `aez_core` that reach `dst`. -/
def pass1go (st : AEZState) (input : Bytes) (output X I_tmp : Bytes)
    (offset remaining i : Nat) : Bytes × Bytes :=
  if _h : remaining ≥ 64 then
    let block1 := (input.drop (offset + 16)).take 16
    let tmp := AES4 st.aes (st.J.getD 0 []) I_tmp (st.L.getD (i % 8) []) block1
    let first_out := xorBytes1x16 ((input.drop offset).take 16) tmp
    let output1 := splice output offset (offset + 16) first_out
    let tmp2 := AES4 st.aes zeroBlock (st.I.getD 0 []) (st.L.getD 0 []) first_out
    let second_out := xorBytes1x16 block1 tmp2
    let output2 := splice output1 (offset + 16) (offset + 32) second_out
    let X1 := xorBytes1x16 second_out X
    let i1 := i + 1
    pass1go st input output2 X1 (if i1 % 8 = 0 then doubleBlock I_tmp else I_tmp)
      (offset + 32) (remaining - 32) i1
  else (output, X)
termination_by remaining
decreasing_by omega

/-- Model of `_AEZState.aez_core_pass1(input_bytes, dst, X)` with `X`
starting as the zero block made in `aez_core`. -/
def AEZState.aez_core_pass1 (st : AEZState) (input output : Bytes) : Bytes × Bytes :=
  pass1go st input output zeroBlock (st.I.getD 1 []) 0 input.length 1

/-- The `while remaining >= 64` loop of `_AEZState.aez_core_pass2`, reading
and rewriting `output[offset .. offset+32)` (again the caller's `dst`),
accumulating `Y`, and swapping the two 16-byte slots before storing. -/
def pass2go (st : AEZState) (output Y S I_tmp : Bytes)
    (offset remaining i : Nat) : Bytes × Bytes :=
  if _h : remaining ≥ 64 then
    let tmp := AES4 st.aes (st.J.getD 1 []) I_tmp (st.L.getD (i % 8) []) S
    let first_out := xorBytes1x16 ((output.drop offset).take 16) tmp
    let second_out := xorBytes1x16 ((output.drop (offset + 16)).take 16) tmp
    let Y1 := xorBytes1x16 first_out Y
    let tmp2 := AES4 st.aes zeroBlock (st.I.getD 0 []) (st.L.getD 0 []) second_out
    let first1 := xorBytes1x16 first_out tmp2
    let tmp3 := AES4 st.aes (st.J.getD 0 []) I_tmp (st.L.getD (i % 8) []) first1
    let second1 := xorBytes1x16 second_out tmp3
    let output1 := splice output offset (offset + 16) second1
    let output2 := splice output1 (offset + 16) (offset + 32) first1
    let i1 := i + 1
    pass2go st output2 Y1 S (if i1 % 8 = 0 then doubleBlock I_tmp else I_tmp)
      (offset + 32) (remaining - 32) i1
  else (output, Y)
termination_by remaining
decreasing_by omega

/-- Model of `_AEZState.aez_core_pass2(input_bytes, dst, Y, S)` (the loop
reads lengths from `input_bytes` but data from `output`). -/
def AEZState.aez_core_pass2 (st : AEZState) (input output S : Bytes) : Bytes × Bytes :=
  pass2go st output zeroBlock S (st.I.getD 1 []) 0 input.length 1

/-- The fragment contribution to the `X` accumulator in `aez_core`
(lines 603-617): the optional 16..31- or 1..15-byte remainder absorbed
through `AES4` with `L[4]`/`L[5]`. -/
def aez_core_X (st : AEZState) (data : Bytes) (X0 : Bytes) : Bytes :=
  let in_bytes := data.length
  let frag_bytes := in_bytes % 32
  let initial_bytes := in_bytes - frag_bytes - 32
  let tail := data.drop initial_bytes
  if frag_bytes ≥ 16 then
    let buf := (tail.drop 16).take 16
    let tmp := AES4 st.aes zeroBlock (st.I.getD 1 []) (st.L.getD 4 []) buf
    let X1 := xorBytes1x16 X0 tmp
    let padded := oneZeroPad (tail.drop 16) (frag_bytes - 16)
    let tmp2 := AES4 st.aes zeroBlock (st.I.getD 1 []) (st.L.getD 5 []) padded
    xorBytes1x16 X1 tmp2
  else if frag_bytes > 0 then
    let padded := oneZeroPad tail frag_bytes
    let tmp := AES4 st.aes zeroBlock (st.I.getD 1 []) (st.L.getD 4 []) padded
    xorBytes1x16 X0 tmp
  else X0

/-- The final-pair computation of `aez_core` (lines 619-634) up to the
value `S = first_dst ^ second_dst` that pass 2 consumes.  The writes of
`first_dst` and `second_dst` into `dst_tail` in the source go into a
`bytearray` slice copy of `dst` and are dropped on return, so only `S`
survives. -/
def aez_core_S (st : AEZState) (delta data : Bytes) (direction : Nat)
    (X : Bytes) : Bytes :=
  let in_bytes := data.length
  let input_tail := (data.drop (in_bytes - 32)).take 32
  let block1 := input_tail.take 16
  let block2 := (input_tail.drop 16).take 16
  let tmp := AES4 st.aes zeroBlock (st.I.getD 1 [])
    (st.L.getD ((1 + direction) % 8) []) block2
  let first_dst := xorBytes4x16 X block1 delta tmp
  let tmp2 := AES10 st.aes (st.L.getD ((1 + direction) % 8) []) first_dst
  let second_dst := xorBytes1x16 block2 tmp2
  xorBytes1x16 first_dst second_dst

/-- Model of `_AEZState.aez_core(delta, data, direction, dst)`.

In the Python source, `dst_tail = dst[in_bytes-32:in_bytes]` and
`dst_fragment = dst[initial_bytes:]` are `bytearray` slice *copies*: the
final-pair bytes, the fragment bytes and the `Y` accumulator are computed
and written only into those copies (lines 619-694), which are discarded
when the call returns.  The only writes that reach `dst` are the slice
assignments inside `aez_core_pass1` and `aez_core_pass2`, so the model
returns the buffer produced by the two passes; of the tail computation it
keeps exactly the part that feeds back into the passes, namely the `X`
accumulator (pass 1 sum plus the fragment terms of `aez_core_X`) and
`S = first_dst ^ second_dst` (`aez_core_S`), which pass 2 consumes. -/
def AEZState.aez_core (st : AEZState) (delta data : Bytes) (direction : Nat)
    (dst : Bytes) : Bytes :=
  let in_bytes := data.length
  let p1 := if in_bytes ≥ 64 then st.aez_core_pass1 data dst else (dst, zeroBlock)
  let X := aez_core_X st data p1.2
  let S := aez_core_S st delta data direction X
  let p2 := if in_bytes ≥ 64 then st.aez_core_pass2 data p1.1 S else (p1.1, zeroBlock)
  p2.1

/-- Model of `_AEZState.encipher(delta, data, dst)`. -/
def AEZState.encipher (st : AEZState) (delta data : Bytes) (dst : Bytes) : Bytes :=
  if data.length = 0 then dst
  else if data.length < 32 then st.aez_tiny delta data 0 dst
  else st.aez_core delta data 0 dst

/-- Model of `_AEZState.decipher(delta, data, dst)`. -/
def AEZState.decipher (st : AEZState) (delta data : Bytes) (dst : Bytes) : Bytes :=
  if data.length = 0 then dst
  else if data.length < 32 then st.aez_tiny delta data 1 dst
  else st.aez_core delta data 1 dst

/-- Python runtime errors the embedding can surface (only `IndexError`
from `bytearray` item access is reachable in `_aez_decrypt`). -/
inductive PyErr where
  | indexError
deriving DecidableEq

instance instDecEqExcept {ε α : Type} [DecidableEq ε] [DecidableEq α] :
    DecidableEq (Except ε α) := fun a b =>
  match a, b with
  | .error e, .error f =>
    if h : e = f then .isTrue (congrArg Except.error h)
    else .isFalse (fun hh => h (Except.error.inj hh))
  | .error _, .ok _ => .isFalse (fun hh => Except.noConfusion hh)
  | .ok _, .error _ => .isFalse (fun hh => Except.noConfusion hh)
  | .ok x, .ok y =>
    if h : x = y then .isTrue (congrArg Except.ok h)
    else .isFalse (fun hh => h (Except.ok.inj hh))

/-- Python item access `xs[i]` on a byte sequence: negative indices count
from the end; out-of-range access raises `IndexError`. -/
def pyIndex (xs : Bytes) (i : Int) : Except PyErr Nat :=
  let j := if i < 0 then i + xs.length else i
  if 0 ≤ j ∧ j < (xs.length : Int) then .ok (xs.getD j.toNat 0)
  else .error .indexError

/-- The tag loop of `_aez_decrypt` in the `len(ciphertext) == tau` branch:
`mismatch |= x[i] ^ ciphertext[i]` for `i in range(tau)` (all indices are
in range there since `|x| = |ciphertext| = tau`). -/
def tagMismatchEq (x c : Bytes) (tau : Nat) : Nat :=
  (List.range tau).foldl (fun m i => m ||| (x.getD i 0 ^^^ c.getD i 0)) 0

/-- The tag loop of `_aez_decrypt` in the `len(ciphertext) != tau` branch:
`mismatch |= x[len(ciphertext) - tau + i]` for `i in range(count)`, with
Python (possibly negative) indexing. -/
def tagOrGo (x : Bytes) (base : Int) (acc : Nat) : Nat → Except PyErr Nat
  | 0 => .ok acc
  | count + 1 =>
    match pyIndex x base with
    | .error e => .error e
    | .ok v => tagOrGo x (base + 1) (acc ||| v) count

/-- Python slice `xs[:stop]` where `stop` may be negative. -/
def pySliceTo (xs : Bytes) (stop : Int) : Bytes :=
  xs.take (if stop < 0 then (stop + xs.length).toNat else stop.toNat)

/-- Model of `_aez_decrypt(key, ad_list, tau, ciphertext)`.  The value
`.ok none` is the `None` (authentication failure) return; `.error e` is a
raised Python exception (possible when `|ciphertext| < tau` through the
negative indices `x[len(ciphertext) - tau + i]`). -/
def aez_decrypt (blake2b48 : Bytes → Bytes) (key : Bytes) (ad_list : List Bytes)
    (tau : Nat) (ciphertext : Bytes) : Except PyErr (Option Bytes) :=
  let st := AEZState.init blake2b48 key
  let delta := st.aez_hash none ad_list (tau * 8)
  let x0 : Bytes := List.replicate ciphertext.length 0
  if ciphertext.length = tau then
    let x := st.aez_prf delta tau x0
    if tagMismatchEq x ciphertext tau ≠ 0 then .ok none else .ok (some [])
  else
    let x := st.decipher delta ciphertext x0
    match tagOrGo x ((ciphertext.length : Int) - tau) 0 tau with
    | .error e => .error e
    | .ok mismatch =>
      if mismatch ≠ 0 then .ok none
      else .ok (some (pySliceTo x ((ciphertext.length : Int) - tau)))

/-- Modelled from the spec (§4.7, the decrypt driver): `If |C| == tau:
aez_prf(delta, tau, stream); if stream ≠ C, AUTH_FAIL else empty
plaintext.  Else: x = decipher(delta, C); verify that the last tau bytes
of x are all zero; on failure, AUTH_FAIL; on success, return
x[0..|C|-tau]`.  This definition follows the spec's words and is compared
against `aez_decrypt` (the source translation) in the claims about the
driver. -/
def aez_decrypt_spec (blake2b48 : Bytes → Bytes) (key : Bytes) (ad_list : List Bytes)
    (tau : Nat) (ciphertext : Bytes) : Option Bytes :=
  let st := AEZState.init blake2b48 key
  let delta := st.aez_hash none ad_list (tau * 8)
  if ciphertext.length = tau then
    let stream := st.aez_prf delta tau (List.replicate tau 0)
    if stream = ciphertext then some [] else none
  else
    let x := st.decipher delta ciphertext (List.replicate ciphertext.length 0)
    if (x.drop (x.length - tau)).all (fun b => b = 0) then
      some (x.take (ciphertext.length - tau))
    else none

/-- Round-trip helper: encipher `data` under the delta derived from
`(ad, tau)` exactly as the decrypt driver derives it, into a fresh
zero buffer of the same length (as `_aez_decrypt` allocates `x`). -/
def encipherFull (blake2b48 : Bytes → Bytes) (key : Bytes) (ad : List Bytes)
    (tau : Nat) (data : Bytes) : Bytes :=
  let st := AEZState.init blake2b48 key
  let delta := st.aez_hash none ad (tau * 8)
  st.encipher delta data (List.replicate data.length 0)

/-- Round-trip helper: decipher, same conventions as `encipherFull`. -/
def decipherFull (blake2b48 : Bytes → Bytes) (key : Bytes) (ad : List Bytes)
    (tau : Nat) (data : Bytes) : Bytes :=
  let st := AEZState.init blake2b48 key
  let delta := st.aez_hash none ad (tau * 8)
  st.decipher delta data (List.replicate data.length 0)

/-- Wire constants of the envelope (`aezeed.py` lines 21-26). -/
def EncipheredCipherSeedSize : Nat := 33

/-- Decoded plaintext size. -/
def DecipheredCipherSeedSize : Nat := 19

/-- Salt size. -/
def SaltSize : Nat := 5

/-- Ciphertext expansion (tag bytes). -/
def CipherTextExpansion : Nat := 4

/-- Bits per mnemonic word. -/
def BitsPerWord : Nat := 11

/-- Supported envelope version byte. -/
def CipherSeedVersion : Nat := 0

/-- UTF-8 bytes of `DEFAULT_PASSPHRASE = "aezeed"`. -/
def DEFAULT_PASSPHRASE_UTF8 : Bytes := [0x61, 0x65, 0x7A, 0x65, 0x65, 0x64]

/-- The `while bit_len >= 8` byte-emitting loop of `mnemonic_to_bytes`:
emit the top byte of the accumulator into `out[pos]` until fewer than
eight bits remain (`bits &= (1 << bit_len) - 1 if bit_len else 0`). -/
def emitBytes (bits bit_len : Nat) (out : Bytes) (pos : Nat) :
    Nat × Nat × Bytes × Nat :=
  if _h : bit_len ≥ 8 then
    let bl := bit_len - 8
    let out1 := out.set pos ((bits >>> bl) &&& 0xFF)
    let bits1 := if bl ≠ 0 then bits &&& ((1 <<< bl) - 1) else 0
    emitBytes bits1 bl out1 (pos + 1)
  else (bits, bit_len, out, pos)
termination_by bit_len
decreasing_by omega

/-- The `for word in words` loop of `mnemonic_to_bytes`: shift eleven bits
per word into the accumulator, failing on a word missing from the map
(Python `KeyError` re-raised as `InvalidMnemonicError`). -/
def packGo (word_to_index : String → Option Nat) :
    List String → Nat → Nat → Bytes → Nat → Except Unit Bytes
  | [], _, _, out, _ => .ok out
  | w :: ws, bits, bit_len, out, pos =>
    match word_to_index w with
    | none => .error ()
    | some idx =>
      let r := emitBytes ((bits <<< BitsPerWord) ||| idx) (bit_len + BitsPerWord)
        out pos
      packGo word_to_index ws r.1 r.2.1 r.2.2.1 r.2.2.2

/-- Model of `mnemonic_to_bytes(words, word_to_index)`: exactly 24 words
packed at 11 bits per word into a 33-byte envelope; `.error ()` is a raised
`InvalidMnemonicError`. -/
def mnemonic_to_bytes (word_to_index : String → Option Nat) (words : List String) :
    Except Unit Bytes :=
  if words.length ≠ 24 then .error ()
  else packGo word_to_index words 0 0 (List.replicate EncipheredCipherSeedSize 0) 0

/-- Model of `validate_mnemonic(words, word_to_index)`: packing failures are
caught and yield `false`; then the version byte and the big-endian CRC32C
over the first 29 bytes are checked. -/
def validate_mnemonic (word_to_index : String → Option Nat)
    (words : List String) : Bool :=
  match mnemonic_to_bytes word_to_index words with
  | .error _ => false
  | .ok cipher_bytes =>
    if cipher_bytes.getD 0 0 ≠ CipherSeedVersion then false
    else intFromBytesBE (cipher_bytes.drop (EncipheredCipherSeedSize - 4))
      == crc32c (cipher_bytes.take (EncipheredCipherSeedSize - 4))

/-- Model of `_encode_ad(version, salt)`. -/
def encode_ad (version : Nat) (salt : Bytes) : Bytes := version :: salt

/-- Model of `DecipheredCipherSeed`. -/
structure DecipheredCipherSeed where
  entropy : Bytes
  salt : Bytes
  internal_version : Nat
  birthday : Nat
deriving DecidableEq

/-- The user-visible failures of `decode_mnemonic`, plus a propagated
Python exception (not raised on any reachable path of the decoder, whose
ciphertext is 23 bytes). -/
inductive DecodeErr where
  | invalidMnemonic
  | invalidPassphrase
  | pyErr (e : PyErr)
deriving DecidableEq

/-- The tail of `decode_mnemonic` after the scrypt call: AD framing, AEZ
decryption with `tau = CipherTextExpansion`, and plaintext parsing.
Factored out so that theorems can exhibit the exact scrypt arguments
`decode_mnemonic` feeds into this continuation. -/
def decodeAfterKDF (blake2b48 : Bytes → Bytes) (key : Bytes)
    (cipher_bytes : Bytes) : Except DecodeErr DecipheredCipherSeed :=
  match aez_decrypt blake2b48 key
      [encode_ad (cipher_bytes.getD 0 0)
        ((cipher_bytes.drop (EncipheredCipherSeedSize - 4 - SaltSize)).take SaltSize)]
      CipherTextExpansion
      ((cipher_bytes.drop 1).take (EncipheredCipherSeedSize - 4 - SaltSize - 1)) with
  | .error e => .error (.pyErr e)
  | .ok none => .error .invalidPassphrase
  | .ok (some plaintext) =>
    if plaintext.length ≠ DecipheredCipherSeedSize then .error .invalidPassphrase
    else .ok
      { internal_version := plaintext.getD 0 0
        birthday := intFromBytesBE ((plaintext.drop 1).take 2)
        entropy := plaintext.drop 3
        salt := (cipher_bytes.drop (EncipheredCipherSeedSize - 4 - SaltSize)).take SaltSize }

/-- Model of `decode_mnemonic(words, passphrase, word_to_index)`.

`scrypt` is Python's `hashlib.scrypt` (outside this repository), an oracle
taking `(password, salt, n, r, p, dklen, maxmem)`.  The passphrase is
modelled by its UTF-8 bytes, so Python's
`(DEFAULT_PASSPHRASE + (passphrase or "")).encode("utf-8")` becomes
prepending `DEFAULT_PASSPHRASE_UTF8` (UTF-8 of a concatenation is the
concatenation of the UTF-8 encodings, and a missing passphrase is the
empty byte string). -/
def decode_mnemonic
    (scrypt : Bytes → Bytes → Nat → Nat → Nat → Nat → Nat → Bytes)
    (blake2b48 : Bytes → Bytes) (word_to_index : String → Option Nat)
    (words : List String) (passUtf8 : Bytes) :
    Except DecodeErr DecipheredCipherSeed :=
  match mnemonic_to_bytes word_to_index words with
  | .error _ => .error .invalidMnemonic
  | .ok cipher_bytes =>
    let version := cipher_bytes.getD 0 0
    if version ≠ CipherSeedVersion then .error .invalidMnemonic
    else
      let checksum := intFromBytesBE (cipher_bytes.drop (EncipheredCipherSeedSize - 4))
      let computed := crc32c (cipher_bytes.take (EncipheredCipherSeedSize - 4))
      if checksum ≠ computed then .error .invalidMnemonic
      else
        let salt := (cipher_bytes.drop (EncipheredCipherSeedSize - 4 - SaltSize)).take SaltSize
        let pass_bytes := DEFAULT_PASSPHRASE_UTF8 ++ passUtf8
        let key := scrypt pass_bytes salt 32768 8 1 32 2000000000
        decodeAfterKDF blake2b48 key cipher_bytes

/-- Concrete stand-in for the BLAKE2b oracle, used by witnesses (the
witness keys are 48 bytes long, so `extractKey` never consults it). -/
def blakeStub : Bytes → Bytes := fun _ => List.replicate 48 0

/-- Concrete stand-in for the scrypt oracle, used by witnesses. -/
def scryptStub : Bytes → Bytes → Nat → Nat → Nat → Nat → Nat → Bytes :=
  fun _ _ _ _ _ _ _ => List.replicate 32 0

/-- A concrete 48-byte key used by witnesses. -/
def key48 : Bytes := List.replicate 48 0

/-- Concrete message for the aez-core round-trip failure: 28 message bytes
(first byte 1) plus the four zero tag bytes give a 32-byte encipher
input. -/
def c1msg : Bytes := 1 :: List.replicate 27 0

/-- A concrete 24-word mnemonic whose packed envelope is `witEnv` (21
words of index 0, then indices 303, 2010, 568). -/
def witWords : List String := List.replicate 21 "z" ++ ["x", "y", "w"]

/-- Word-to-index map for `witWords`. -/
def witMap : String → Option Nat := fun s =>
  if s = "z" then some 0
  else if s = "x" then some 303
  else if s = "y" then some 2010
  else if s = "w" then some 568
  else none

/-- The envelope packed from `witWords`: 29 zero bytes followed by the
big-endian CRC32C of those 29 bytes, so version and checksum both pass. -/
def witEnv : Bytes := List.replicate 29 0 ++ [75, 254, 210, 56]


/-- The first 16-byte block one `pass1go` iteration writes (proof
scaffolding for the frame lemmas, not a separate source routine). -/
def p1first (st : AEZState) (input I_tmp : Bytes) (offset i : Nat) : Bytes :=
  xorBytes1x16 ((input.drop offset).take 16)
    (AES4 st.aes (st.J.getD 0 []) I_tmp (st.L.getD (i % 8) [])
      ((input.drop (offset + 16)).take 16))

/-- The second 16-byte block one `pass1go` iteration writes. -/
def p1second (st : AEZState) (input I_tmp : Bytes) (offset i : Nat) : Bytes :=
  xorBytes1x16 ((input.drop (offset + 16)).take 16)
    (AES4 st.aes zeroBlock (st.I.getD 0 []) (st.L.getD 0 [])
      (p1first st input I_tmp offset i))

/-- The two 16-byte blocks one `pass2go` iteration writes, and its `Y`
accumulator update (proof scaffolding for the frame lemmas). -/
def p2blocks (st : AEZState) (output Y S I_tmp : Bytes) (offset i : Nat) :
    Bytes × Bytes × Bytes :=
  let tmp := AES4 st.aes (st.J.getD 1 []) I_tmp (st.L.getD (i % 8) []) S
  let first_out := xorBytes1x16 ((output.drop offset).take 16) tmp
  let second_out := xorBytes1x16 ((output.drop (offset + 16)).take 16) tmp
  let tmp2 := AES4 st.aes zeroBlock (st.I.getD 0 []) (st.L.getD 0 []) second_out
  let first1 := xorBytes1x16 first_out tmp2
  let tmp3 := AES4 st.aes (st.J.getD 0 []) I_tmp (st.L.getD (i % 8) []) first1
  let second1 := xorBytes1x16 second_out tmp3
  (second1, first1, xorBytes1x16 first_out Y)

/-! ## Generic list and byte lemmas -/

theorem getD_map_range (f : Nat → Nat) (k i : Nat) :
    ((List.range k).map f).getD i 0 = if i < k then f i else 0 := by
  by_cases h : i < k
  · have hik : i < ((List.range k).map f).length := by simpa using h
    have h1 : ((List.range k).map f).getD i 0 = ((List.range k).map f)[i] :=
      List.getD_eq_getElem _ _ hik
    simp [h1, h]
  · have h1 : ((List.range k).map f).getD i 0 = 0 :=
      List.getD_eq_default _ _ (by simpa using Nat.le_of_not_lt h)
    rw [h1, if_neg h]

theorem getD_replicate_zero (k i : Nat) :
    (List.replicate k (0 : Nat)).getD i 0 = 0 := by
  by_cases h : i < k
  · have hik : i < (List.replicate k (0 : Nat)).length := by simpa using h
    have h1 : (List.replicate k (0 : Nat)).getD i 0 =
        (List.replicate k (0 : Nat))[i] :=
      List.getD_eq_getElem _ _ hik
    simp [h1]
  · exact List.getD_eq_default _ _ (by simpa using Nat.le_of_not_lt h)

theorem ext_getD {a b : Bytes} (hl : a.length = b.length)
    (h : ∀ i, i < a.length → a.getD i 0 = b.getD i 0) : a = b := by
  refine List.ext_getElem hl fun i h₁ h₂ => ?_
  have hi := h i h₁
  rwa [List.getD_eq_getElem _ _ h₁, List.getD_eq_getElem _ _ h₂] at hi

theorem getD_drop (l : Bytes) (i j : Nat) :
    (l.drop i).getD j 0 = l.getD (i + j) 0 := by
  by_cases h : i + j < l.length
  · have hj : j < (l.drop i).length := by simp; omega
    calc (l.drop i).getD j 0 = (l.drop i)[j] := List.getD_eq_getElem _ _ hj
      _ = l[i + j] := List.getElem_drop _
      _ = l.getD (i + j) 0 := (List.getD_eq_getElem _ _ h).symm
  · rw [List.getD_eq_default (l.drop i) 0 (by simp; omega),
      List.getD_eq_default _ _ (Nat.le_of_not_lt h)]

theorem getD_take (l : Bytes) (i j : Nat) (h : j < i) :
    (l.take i).getD j 0 = l.getD j 0 := by
  by_cases h2 : j < l.length
  · have hj : j < (l.take i).length := by simp; omega
    calc (l.take i).getD j 0 = (l.take i)[j] := List.getD_eq_getElem _ _ hj
      _ = l[j] := List.getElem_take _
      _ = l.getD j 0 := (List.getD_eq_getElem _ _ h2).symm
  · rw [List.getD_eq_default (l.take i) 0 (by simp; omega),
      List.getD_eq_default _ _ (Nat.le_of_not_lt h2)]

theorem length_xorBytes1x16 (a b : Bytes) : (xorBytes1x16 a b).length = 16 := by
  simp [xorBytes1x16]

theorem getD_xorBytes1x16 (a b : Bytes) (i : Nat) :
    (xorBytes1x16 a b).getD i 0 =
      if i < 16 then a.getD i 0 ^^^ b.getD i 0 else 0 :=
  getD_map_range _ 16 i

theorem length_doubleBlock (p : Bytes) : (doubleBlock p).length = 16 := by
  simp [doubleBlock]

theorem length_splice (dst xs : Bytes) (a b : Nat) (hab : a ≤ b)
    (hb : b ≤ dst.length) (hxs : xs.length = b - a) :
    (splice dst a b xs).length = dst.length := by
  simp [splice]
  omega

/-- getD through a `splice`, in all three regions. -/
theorem getD_splice (dst xs : Bytes) (a b k : Nat) (hab : a ≤ b)
    (hb : b ≤ dst.length) (hxs : xs.length = b - a) :
    (splice dst a b xs).getD k 0 =
      if k < a then dst.getD k 0
      else if k < b then xs.getD (k - a) 0
      else dst.getD k 0 := by
  have hta : (List.take a dst).length = a := by simp; omega
  unfold splice
  rw [List.append_assoc]
  by_cases h1 : k < a
  · have e1 := List.getD_append (List.take a dst) (xs ++ List.drop b dst) 0 k
      (by omega)
    rw [e1, getD_take dst a k h1, if_pos h1]
  · have e1 := List.getD_append_right (List.take a dst) (xs ++ List.drop b dst) 0 k
      (by omega)
    rw [e1, hta]
    by_cases h2 : k < b
    · have e2 := List.getD_append xs (List.drop b dst) 0 (k - a) (by omega)
      rw [e2, if_neg h1, if_pos h2]
    · have e2 := List.getD_append_right xs (List.drop b dst) 0 (k - a) (by omega)
      rw [e2, getD_drop, if_neg h1, if_neg h2]
      congr 1
      omega

theorem getD_splice_high (dst xs : Bytes) (a b k : Nat) (hab : a ≤ b)
    (hb : b ≤ dst.length) (hxs : xs.length = b - a) (hk : b ≤ k) :
    (splice dst a b xs).getD k 0 = dst.getD k 0 := by
  rw [getD_splice dst xs a b k hab hb hxs]
  have h1 : ¬ k < a := by omega
  have h2 : ¬ k < b := by omega
  simp [h1, h2]

theorem getD_splice_low (dst xs : Bytes) (a b k : Nat) (hab : a ≤ b)
    (hb : b ≤ dst.length) (hxs : xs.length = b - a) (hk : k < a) :
    (splice dst a b xs).getD k 0 = dst.getD k 0 := by
  rw [getD_splice dst xs a b k hab hb hxs]
  simp [hk]

theorem shiftLeft_xor_distrib (x y n : Nat) :
    (x ^^^ y) <<< n = (x <<< n) ^^^ (y <<< n) := by
  apply Nat.eq_of_testBit_eq
  intro i
  simp only [Nat.testBit_shiftLeft, Nat.testBit_xor]
  by_cases h : n ≤ i <;> simp [h]

theorem shiftRight_xor_distrib (x y n : Nat) :
    (x ^^^ y) >>> n = (x >>> n) ^^^ (y >>> n) := by
  apply Nat.eq_of_testBit_eq
  intro i
  simp [Nat.testBit_shiftRight, Nat.testBit_xor]

theorem xor_mix (a b c d : Nat) :
    (a ^^^ b) ^^^ (c ^^^ d) = (a ^^^ c) ^^^ (b ^^^ d) := by
  apply Nat.eq_of_testBit_eq
  intro i
  simp [Nat.testBit_xor, Bool.xor_assoc, Bool.xor_left_comm, Bool.xor_comm]

/-- The OR in the doubling byte update acts on disjoint bit ranges, so it is
an XOR after the byte mask. -/
theorem dblByteA (x y : Nat) (hy : y < 256) :
    ((x <<< 1) ||| (y >>> 7)) &&& 255 = ((x <<< 1) &&& 255) ^^^ (y >>> 7) := by
  have e255 : (255 : Nat) = 2 ^ 8 - 1 := by norm_num
  apply Nat.eq_of_testBit_eq
  intro i
  rw [e255, Nat.and_pow_two_sub_one_eq_mod, Nat.and_pow_two_sub_one_eq_mod,
    Nat.testBit_mod_two_pow, Nat.testBit_xor, Nat.testBit_mod_two_pow,
    Nat.testBit_lor, Nat.testBit_shiftRight]
  by_cases h0 : i = 0
  · subst h0
    have hx0 : (x <<< 1).testBit 0 = false := by
      rw [Nat.testBit_shiftLeft]; simp
    simp [hx0]
  · have hyb : y.testBit (7 + i) = false := by
      apply Nat.testBit_lt_two_pow
      calc y < 256 := hy
        _ = 2 ^ 8 := by norm_num
        _ ≤ 2 ^ (7 + i) := Nat.pow_le_pow_right (by norm_num) (by omega)
    by_cases h8 : i < 8 <;> simp [h8, hyb]

/-- Linearity over XOR of the first fifteen byte updates of `doubleBlock`. -/
theorem dblByte_linear (p q r s : Nat) (hq : q < 256) (hs : s < 256) :
    (((p ^^^ r) <<< 1) ||| ((q ^^^ s) >>> 7)) &&& 255 =
      (((p <<< 1) ||| (q >>> 7)) &&& 255) ^^^ (((r <<< 1) ||| (s >>> 7)) &&& 255) := by
  have hqs : q ^^^ s < 256 := @Nat.xor_lt_two_pow q s 8 hq hs
  rw [dblByteA _ _ hqs, dblByteA _ _ hq, dblByteA _ _ hs, shiftLeft_xor_distrib,
    shiftRight_xor_distrib, Nat.and_xor_distrib_right]
  exact xor_mix _ _ _ _

/-- The conditional `0x87` reduction term of `doubleBlock` is linear over
XOR in the top bit of byte 0. -/
theorem cond87_linear (t u : Nat) :
    (if (t ^^^ u) &&& 128 ≠ 0 then 135 else 0) =
      ((if t &&& 128 ≠ 0 then 135 else 0) ^^^ (if u &&& 128 ≠ 0 then 135 else 0)
        : Nat) := by
  have e : (t ^^^ u) &&& 128 = (t &&& 128) ^^^ (u &&& 128) :=
    Nat.and_xor_distrib_right
  have e128 : (128 : Nat) = 2 ^ 7 := by norm_num
  have ht : t &&& 128 = 0 ∨ t &&& 128 = 128 := by
    rw [e128, Nat.and_two_pow]
    cases t.testBit 7 <;> simp
  have hu : u &&& 128 = 0 ∨ u &&& 128 = 128 := by
    rw [e128, Nat.and_two_pow]
    cases u.testBit 7 <;> simp
  rcases ht with h1 | h1 <;> rcases hu with h2 | h2 <;>
    simp [e, h1, h2]

/-- Linearity of the final byte update of `doubleBlock`. -/
theorem dblByte15_linear (x y t u : Nat) :
    (((x ^^^ y) <<< 1) &&& 0xFE) ^^^ (if (t ^^^ u) &&& 128 ≠ 0 then 135 else 0) =
      ((((x <<< 1) &&& 0xFE) ^^^ (if t &&& 128 ≠ 0 then 135 else 0)) ^^^
        (((y <<< 1) &&& 0xFE) ^^^ (if u &&& 128 ≠ 0 then 135 else 0))) := by
  rw [shiftLeft_xor_distrib, Nat.and_xor_distrib_right, cond87_linear]
  exact xor_mix _ _ _ _

theorem getD_doubleBlock (p : Bytes) (i : Nat) :
    (doubleBlock p).getD i 0 =
      if i < 15 then ((p.getD i 0 <<< 1) ||| (p.getD (i + 1) 0 >>> 7)) &&& 255
      else if i = 15 then
        ((p.getD 15 0 <<< 1) &&& 0xFE) ^^^
          (if p.getD 0 0 &&& 0x80 ≠ 0 then 0x87 else 0)
      else 0 := by
  unfold doubleBlock
  by_cases h : i < 15
  · have e := List.getD_append
      ((List.range 15).map fun j => ((p.getD j 0 <<< 1) ||| (p.getD (j + 1) 0 >>> 7)) &&& 255)
      [((p.getD 15 0 <<< 1) &&& 0xFE) ^^^ (if p.getD 0 0 &&& 0x80 ≠ 0 then 0x87 else 0)]
      0 i (by simpa using h)
    rw [e, getD_map_range, if_pos h, if_pos h]
  · have e := List.getD_append_right
      ((List.range 15).map fun j => ((p.getD j 0 <<< 1) ||| (p.getD (j + 1) 0 >>> 7)) &&& 255)
      [((p.getD 15 0 <<< 1) &&& 0xFE) ^^^ (if p.getD 0 0 &&& 0x80 ≠ 0 then 0x87 else 0)]
      0 i (by simpa using Nat.le_of_not_lt h)
    rw [e, if_neg h]
    by_cases h15 : i = 15
    · subst h15
      simp
    · have : 1 ≤ i - (List.length ((List.range 15).map fun j =>
          ((p.getD j 0 <<< 1) ||| (p.getD (j + 1) 0 >>> 7)) &&& 255)) := by
        simp
        omega
      rw [List.getD_eq_default _ _ (by simpa using this), if_neg h15]

theorem getD_lt_256 {a : Bytes} (h : ∀ x ∈ a, x < 256) {i : Nat}
    (hi : i < a.length) : a.getD i 0 < 256 := by
  rw [List.getD_eq_getElem _ _ hi]
  exact h _ (List.getElem_mem hi)

theorem xor_zeroBlock (b : Bytes) (hb : b.length = 16) :
    xorBytes1x16 zeroBlock b = b := by
  apply ext_getD (by rw [length_xorBytes1x16, hb])
  intro i hi
  rw [length_xorBytes1x16] at hi
  rw [getD_xorBytes1x16, if_pos hi]
  unfold zeroBlock
  rw [getD_replicate_zero, Nat.zero_xor]

theorem multBlock_two (b : Bytes) : multBlock 2 b = doubleBlock b := by
  have h : multBlock 2 b = xorBytes1x16 zeroBlock (doubleBlock b) := by
    simp [multBlock, multBlockGo]
  rw [h, xor_zeroBlock _ (length_doubleBlock b)]

/-- C6: the table-driven CRC32C (reflected Castagnoli polynomial
`0x82F63B78`, initial value `0xFFFFFFFF`, final XOR `0xFFFFFFFF`) maps the
ASCII bytes of `"123456789"` to exactly `0xE3069283`. -/
theorem crc32c_check_vector :
    crc32c [0x31, 0x32, 0x33, 0x34, 0x35, 0x36, 0x37, 0x38, 0x39] = 0xE3069283 := by
  decide

/-- C7: `_double_block` maps the all-zero block to the all-zero block, and
is linear over GF(2): for 16-byte blocks of bytes, doubling a bytewise XOR
is the bytewise XOR of the doublings. -/
theorem double_zero_and_linear :
    doubleBlock zeroBlock = zeroBlock ∧
    ∀ a b : Bytes, a.length = 16 → b.length = 16 →
      (∀ x ∈ a, x < 256) → (∀ x ∈ b, x < 256) →
      doubleBlock (xorBytes1x16 a b) = xorBytes1x16 (doubleBlock a) (doubleBlock b) := by
  constructor
  · decide
  · intro a b ha hb hab hbb
    apply ext_getD (by rw [length_doubleBlock, length_xorBytes1x16])
    intro i hi
    rw [length_doubleBlock] at hi
    have eL := getD_doubleBlock (xorBytes1x16 a b) i
    have eR := getD_xorBytes1x16 (doubleBlock a) (doubleBlock b) i
    have ex : ∀ j, j < 16 → (xorBytes1x16 a b).getD j 0 = a.getD j 0 ^^^ b.getD j 0 :=
      fun j hj => by rw [getD_xorBytes1x16, if_pos hj]
    by_cases h15 : i < 15
    · rw [eL, eR, if_pos hi, if_pos h15, getD_doubleBlock a i, getD_doubleBlock b i,
        if_pos h15, if_pos h15, ex i hi, ex (i + 1) (by omega)]
      exact dblByte_linear _ _ _ _
        (getD_lt_256 hab (by omega)) (getD_lt_256 hbb (by omega))
    · have h15' : i = 15 := by omega
      subst h15'
      rw [eL, eR, if_pos hi, if_neg h15, if_pos rfl, getD_doubleBlock a 15,
        getD_doubleBlock b 15, if_neg h15, if_neg h15, if_pos rfl, if_pos rfl,
        ex 15 (by omega), ex 0 (by omega)]
      exact dblByte15_linear _ _ _ _

/-- Witness for C7 at concrete blocks. -/
theorem double_zero_and_linear_witness :
    ((List.range 16).length = 16 ∧ (List.replicate 16 (255 : Nat)).length = 16 ∧
      (∀ x ∈ List.range 16, x < 256) ∧ (∀ x ∈ List.replicate 16 (255 : Nat), x < 256)) ∧
    doubleBlock (xorBytes1x16 (List.range 16) (List.replicate 16 255)) =
      xorBytes1x16 (doubleBlock (List.range 16)) (doubleBlock (List.replicate 16 255)) :=
  ⟨⟨by decide, by decide, by decide, by decide⟩,
    double_zero_and_linear.2 (List.range 16) (List.replicate 16 255)
      (by decide) (by decide) (by decide) (by decide)⟩

/-- C5: after `_AEZState.init(key)` with `extracted = _extract_key(key)`
(identity on 48-byte keys, BLAKE2b-48 otherwise), the tweak schedule
satisfies `I[0] = extracted[0:16]`, `I[1] = double(I[0])`,
`J[0] = extracted[16:32]`, `J[1] = double(J[0])`, `J[2] = double(J[1])`,
`L[0] = 0^16`, `L[1] = extracted[32:48]`, `L[2] = double(L[1])`,
`L[3] = L[2] ⊕ L[1]`, `L[4] = double(L[2])`, `L[5] = L[4] ⊕ L[1]`,
`L[6] = double(L[3])`, `L[7] = L[6] ⊕ L[1]`; and `_mult_block(2, src, dst)`
coincides with one application of `_double_block`. -/
theorem init_tweak_schedule (blake2b48 : Bytes → Bytes) (key : Bytes) :
    ((AEZState.init blake2b48 key).I.getD 0 [] = (extractKey blake2b48 key).take 16 ∧
     (AEZState.init blake2b48 key).I.getD 1 [] =
       doubleBlock ((AEZState.init blake2b48 key).I.getD 0 []) ∧
     (AEZState.init blake2b48 key).J.getD 0 [] =
       ((extractKey blake2b48 key).drop 16).take 16 ∧
     (AEZState.init blake2b48 key).J.getD 1 [] =
       doubleBlock ((AEZState.init blake2b48 key).J.getD 0 []) ∧
     (AEZState.init blake2b48 key).J.getD 2 [] =
       doubleBlock ((AEZState.init blake2b48 key).J.getD 1 []) ∧
     (AEZState.init blake2b48 key).L.getD 0 [] = List.replicate 16 0 ∧
     (AEZState.init blake2b48 key).L.getD 1 [] =
       ((extractKey blake2b48 key).drop 32).take 16 ∧
     (AEZState.init blake2b48 key).L.getD 2 [] =
       doubleBlock ((AEZState.init blake2b48 key).L.getD 1 []) ∧
     (AEZState.init blake2b48 key).L.getD 3 [] =
       xorBytes1x16 ((AEZState.init blake2b48 key).L.getD 2 [])
         ((AEZState.init blake2b48 key).L.getD 1 []) ∧
     (AEZState.init blake2b48 key).L.getD 4 [] =
       doubleBlock ((AEZState.init blake2b48 key).L.getD 2 []) ∧
     (AEZState.init blake2b48 key).L.getD 5 [] =
       xorBytes1x16 ((AEZState.init blake2b48 key).L.getD 4 [])
         ((AEZState.init blake2b48 key).L.getD 1 []) ∧
     (AEZState.init blake2b48 key).L.getD 6 [] =
       doubleBlock ((AEZState.init blake2b48 key).L.getD 3 []) ∧
     (AEZState.init blake2b48 key).L.getD 7 [] =
       xorBytes1x16 ((AEZState.init blake2b48 key).L.getD 6 [])
         ((AEZState.init blake2b48 key).L.getD 1 [])) ∧
    (∀ src : Bytes, src.length = 16 → multBlock 2 src = doubleBlock src) := by
  refine ⟨⟨?_, ?_, ?_, ?_, ?_, ?_, ?_, ?_, ?_, ?_, ?_, ?_, ?_⟩,
    fun src _ => multBlock_two src⟩ <;>
    simp [AEZState.init, multBlock_two, zeroBlock]

/-- Witness for C5 at a concrete key and block. -/
theorem init_tweak_schedule_witness :
    ((AEZState.init blakeStub key48).I.getD 1 [] =
      doubleBlock ((AEZState.init blakeStub key48).I.getD 0 [])) ∧
    ((List.range 16).length = 16 ∧
      multBlock 2 (List.range 16) = doubleBlock (List.range 16)) :=
  ⟨(init_tweak_schedule blakeStub key48).1.2.1,
    ⟨by decide,
      (init_tweak_schedule blakeStub key48).2 (List.range 16) (by decide)⟩⟩

/-- C1 (failing input): with the all-zero 48-byte key, empty AD, tag
length 4 and the 28-byte message `c1msg`, enciphering
`c1msg ++ 0^4` (32 bytes, the aez-core path) leaves the zero output
buffer entirely untouched — `aez_core`'s final-pair and fragment writes
go into `bytearray` slice copies (`dst_tail`, `dst_fragment`) that never
reach `dst` — so deciphering the encipherment returns `0^32` and the
round-trip identity of the specification fails. -/
theorem aez_core_roundtrip_fails :
    encipherFull blakeStub key48 [] 4 (c1msg ++ List.replicate 4 0) =
      List.replicate 32 0 ∧
    decipherFull blakeStub key48 [] 4
        (encipherFull blakeStub key48 [] 4 (c1msg ++ List.replicate 4 0)) ≠
      c1msg ++ List.replicate 4 0 := by
  exact ⟨by decide, by decide⟩

theorem packGo_error_iff (w2i : String → Option Nat) :
    ∀ (ws : List String) (bits bit_len : Nat) (out : Bytes) (pos : Nat),
      packGo w2i ws bits bit_len out pos = .error () ↔ ∃ w ∈ ws, w2i w = none := by
  intro ws
  induction ws with
  | nil => intro bits bit_len out pos; simp [packGo]
  | cons w ws ih =>
    intro bits bit_len out pos
    cases hw : w2i w with
    | none => simp [packGo, hw]
    | some idx => simp [packGo, hw, ih]

theorem mnemonic_to_bytes_error_iff (w2i : String → Option Nat) (words : List String) :
    mnemonic_to_bytes w2i words = .error () ↔
      words.length ≠ 24 ∨ ∃ w ∈ words, w2i w = none := by
  unfold mnemonic_to_bytes
  by_cases h : words.length = 24
  · simp [h, packGo_error_iff]
  · simp [h]

/-- C10: `validate_mnemonic` never raises (it is a total `Bool` function in
this model, mirroring how the source catches `InvalidMnemonicError`); it
returns `true` exactly when packing succeeds, the packed byte 0 equals
`CipherSeedVersion`, and the stored big-endian CRC32C matches the CRC32C
of the first 29 bytes; in particular it returns `false` whenever packing
fails (word count ≠ 24 or an unknown word). -/
theorem validate_mnemonic_checks (w2i : String → Option Nat) (words : List String) :
    (validate_mnemonic w2i words = true ↔
      ∃ cb, mnemonic_to_bytes w2i words = .ok cb ∧
        cb.getD 0 0 = CipherSeedVersion ∧
        intFromBytesBE (cb.drop (EncipheredCipherSeedSize - 4)) =
          crc32c (cb.take (EncipheredCipherSeedSize - 4))) ∧
    ((words.length ≠ 24 ∨ ∃ w ∈ words, w2i w = none) →
      validate_mnemonic w2i words = false) := by
  constructor
  · cases hm : mnemonic_to_bytes w2i words with
    | error e => simp [validate_mnemonic, hm]
    | ok cb =>
      by_cases hv : cb.getD 0 0 = CipherSeedVersion
      · simp [validate_mnemonic, hm, hv]
      · simp [validate_mnemonic, hm, hv]
  · intro h
    have he : mnemonic_to_bytes w2i words = .error () :=
      (mnemonic_to_bytes_error_iff w2i words).2 h
    simp [validate_mnemonic, he]

/-- A run of `decode_mnemonic` past the structural checks never reports
`InvalidMnemonicError`: every later failure is `InvalidPassphraseError`
(or a propagated Python error). -/
theorem decodeAfterKDF_ne_invalidMnemonic (blake2b48 : Bytes → Bytes)
    (key cb : Bytes) :
    decodeAfterKDF blake2b48 key cb ≠ .error .invalidMnemonic := by
  cases haez : aez_decrypt blake2b48 key
      [encode_ad (cb.getD 0 0)
        ((cb.drop (EncipheredCipherSeedSize - 4 - SaltSize)).take SaltSize)]
      CipherTextExpansion
      ((cb.drop 1).take (EncipheredCipherSeedSize - 4 - SaltSize - 1)) with
  | error e =>
    have hred : decodeAfterKDF blake2b48 key cb = .error (.pyErr e) := by
      unfold decodeAfterKDF
      rw [haez]
    simp [hred]
  | ok p =>
    cases p with
    | none =>
      have hred : decodeAfterKDF blake2b48 key cb = .error .invalidPassphrase := by
        unfold decodeAfterKDF
        rw [haez]
      simp [hred]
    | some pt =>
      have hred : decodeAfterKDF blake2b48 key cb =
          (if pt.length ≠ DecipheredCipherSeedSize then .error .invalidPassphrase
           else .ok
             { internal_version := pt.getD 0 0
               birthday := intFromBytesBE ((pt.drop 1).take 2)
               entropy := pt.drop 3
               salt := (cb.drop (EncipheredCipherSeedSize - 4 - SaltSize)).take
                 SaltSize }) := by
        unfold decodeAfterKDF
        rw [haez]
      rw [hred]
      split <;> simp

/-- C3: `decode_mnemonic` reports `InvalidMnemonicError` exactly when the
word count is not 24, some word is missing from the map, the packed
envelope's byte 0 differs from `CipherSeedVersion`, or the stored
big-endian CRC32C differs from the CRC32C of bytes 0..29.  The scrypt
oracle and the passphrase are universally quantified and absent from the
right-hand side, so each failure is independent of the passphrase and of
any KDF/AEZ computation. -/
theorem decode_invalid_mnemonic_iff
    (scrypt : Bytes → Bytes → Nat → Nat → Nat → Nat → Nat → Bytes)
    (blake2b48 : Bytes → Bytes) (w2i : String → Option Nat)
    (words : List String) (passUtf8 : Bytes) :
    decode_mnemonic scrypt blake2b48 w2i words passUtf8 = .error .invalidMnemonic ↔
      (words.length ≠ 24 ∨ (∃ w ∈ words, w2i w = none) ∨
        ∃ cb, mnemonic_to_bytes w2i words = .ok cb ∧
          (cb.getD 0 0 ≠ CipherSeedVersion ∨
            intFromBytesBE (cb.drop (EncipheredCipherSeedSize - 4)) ≠
              crc32c (cb.take (EncipheredCipherSeedSize - 4)))) := by
  cases hm : mnemonic_to_bytes w2i words with
  | error e =>
    have he : mnemonic_to_bytes w2i words = .error () := by
      cases e; exact hm
    have hlhs : decode_mnemonic scrypt blake2b48 w2i words passUtf8 =
        .error .invalidMnemonic := by
      unfold decode_mnemonic
      rw [hm]
    refine iff_of_true hlhs ?_
    rcases (mnemonic_to_bytes_error_iff w2i words).1 he with h | h
    · exact Or.inl h
    · exact Or.inr (Or.inl h)
  | ok cb =>
    have hne : ¬ (words.length ≠ 24 ∨ ∃ w ∈ words, w2i w = none) := by
      intro h
      have he := (mnemonic_to_bytes_error_iff w2i words).2 h
      rw [hm] at he
      exact Except.noConfusion he
    have hred : decode_mnemonic scrypt blake2b48 w2i words passUtf8 =
        (if cb.getD 0 0 ≠ CipherSeedVersion then .error .invalidMnemonic
         else if intFromBytesBE (cb.drop (EncipheredCipherSeedSize - 4)) ≠
             crc32c (cb.take (EncipheredCipherSeedSize - 4)) then
           .error .invalidMnemonic
         else decodeAfterKDF blake2b48
           (scrypt (DEFAULT_PASSPHRASE_UTF8 ++ passUtf8)
             ((cb.drop (EncipheredCipherSeedSize - 4 - SaltSize)).take SaltSize)
             32768 8 1 32 2000000000) cb) := by
      unfold decode_mnemonic
      rw [hm]
    rw [hred]
    by_cases hv : cb.getD 0 0 = CipherSeedVersion
    · rw [if_neg (not_not_intro hv)]
      by_cases hc : intFromBytesBE (cb.drop (EncipheredCipherSeedSize - 4)) =
          crc32c (cb.take (EncipheredCipherSeedSize - 4))
      · rw [if_neg (not_not_intro hc)]
        refine iff_of_false (decodeAfterKDF_ne_invalidMnemonic _ _ _) ?_
        rintro (h | h | ⟨cb', hcb', hbad⟩)
        · exact hne (Or.inl h)
        · exact hne (Or.inr h)
        · cases Except.ok.inj hcb'
          rcases hbad with h | h
          · exact h hv
          · exact h hc
      · rw [if_pos hc]
        exact iff_of_true rfl (Or.inr (Or.inr ⟨cb, rfl, Or.inr hc⟩))
    · rw [if_pos hv]
      exact iff_of_true rfl (Or.inr (Or.inr ⟨cb, rfl, Or.inl hv⟩))

/-- C4: once the structural checks pass, `decode_mnemonic` is exactly the
post-KDF continuation applied to the scrypt oracle called with password
bytes `UTF-8("aezeed") ++ passphrase` (the literal is prepended
unconditionally, the empty string stands in for a missing passphrase),
salt = envelope bytes 24..29, and parameters `N = 32768`, `r = 8`,
`p = 1`, `dkLen = 32` (and `maxmem = 2_000_000_000`). -/
theorem decode_kdf_args
    (scrypt : Bytes → Bytes → Nat → Nat → Nat → Nat → Nat → Bytes)
    (blake2b48 : Bytes → Bytes) (w2i : String → Option Nat)
    (words : List String) (passUtf8 : Bytes) (cb : Bytes)
    (hm : mnemonic_to_bytes w2i words = .ok cb)
    (hv : cb.getD 0 0 = CipherSeedVersion)
    (hc : intFromBytesBE (cb.drop (EncipheredCipherSeedSize - 4)) =
      crc32c (cb.take (EncipheredCipherSeedSize - 4))) :
    decode_mnemonic scrypt blake2b48 w2i words passUtf8 =
      decodeAfterKDF blake2b48
        (scrypt (DEFAULT_PASSPHRASE_UTF8 ++ passUtf8)
          ((cb.drop (EncipheredCipherSeedSize - 4 - SaltSize)).take SaltSize)
          32768 8 1 32 2000000000)
        cb := by
  have hred : decode_mnemonic scrypt blake2b48 w2i words passUtf8 =
      (if cb.getD 0 0 ≠ CipherSeedVersion then .error .invalidMnemonic
       else if intFromBytesBE (cb.drop (EncipheredCipherSeedSize - 4)) ≠
           crc32c (cb.take (EncipheredCipherSeedSize - 4)) then
         .error .invalidMnemonic
       else decodeAfterKDF blake2b48
         (scrypt (DEFAULT_PASSPHRASE_UTF8 ++ passUtf8)
           ((cb.drop (EncipheredCipherSeedSize - 4 - SaltSize)).take SaltSize)
           32768 8 1 32 2000000000) cb) := by
    unfold decode_mnemonic
    rw [hm]
  rw [hred, if_neg (not_not_intro hv), if_neg (not_not_intro hc)]

/-- Witness for C4 at a concrete valid mnemonic and concrete oracles. -/
theorem decode_kdf_args_witness :
    (mnemonic_to_bytes witMap witWords = .ok witEnv ∧
      witEnv.getD 0 0 = CipherSeedVersion ∧
      intFromBytesBE (witEnv.drop (EncipheredCipherSeedSize - 4)) =
        crc32c (witEnv.take (EncipheredCipherSeedSize - 4))) ∧
    decode_mnemonic scryptStub blakeStub witMap witWords [] =
      decodeAfterKDF blakeStub
        (scryptStub (DEFAULT_PASSPHRASE_UTF8 ++ [])
          ((witEnv.drop (EncipheredCipherSeedSize - 4 - SaltSize)).take SaltSize)
          32768 8 1 32 2000000000)
        witEnv :=
  ⟨⟨by
      simp [mnemonic_to_bytes, packGo, emitBytes, witMap, witWords, witEnv,
        BitsPerWord, EncipheredCipherSeedSize, List.replicate]
      decide,
    by decide, by decide⟩,
    decode_kdf_args scryptStub blakeStub witMap witWords [] witEnv
      (by
        simp [mnemonic_to_bytes, packGo, emitBytes, witMap, witWords, witEnv,
          BitsPerWord, EncipheredCipherSeedSize, List.replicate]
        decide)
      (by decide) (by decide)⟩

/-- One unfolding step of `pass1go` in the loop case. -/
theorem pass1go_step (st : AEZState) (input output X I_tmp : Bytes)
    (offset remaining i : Nat) (h : remaining ≥ 64) :
    pass1go st input output X I_tmp offset remaining i =
      pass1go st input
        (splice (splice output offset (offset + 16) (p1first st input I_tmp offset i))
          (offset + 16) (offset + 32) (p1second st input I_tmp offset i))
        (xorBytes1x16 (p1second st input I_tmp offset i) X)
        (if (i + 1) % 8 = 0 then doubleBlock I_tmp else I_tmp)
        (offset + 32) (remaining - 32) (i + 1) := by
  rw [pass1go, dif_pos h]
  simp only [p1first, p1second]

/-- One unfolding step of `pass2go` in the loop case. -/
theorem pass2go_step (st : AEZState) (output Y S I_tmp : Bytes)
    (offset remaining i : Nat) (h : remaining ≥ 64) :
    pass2go st output Y S I_tmp offset remaining i =
      pass2go st
        (splice (splice output offset (offset + 16)
            (p2blocks st output Y S I_tmp offset i).1)
          (offset + 16) (offset + 32) (p2blocks st output Y S I_tmp offset i).2.1)
        (p2blocks st output Y S I_tmp offset i).2.2 S
        (if (i + 1) % 8 = 0 then doubleBlock I_tmp else I_tmp)
        (offset + 32) (remaining - 32) (i + 1) := by
  rw [pass2go, dif_pos h]
  simp only [p2blocks]

/-- Writing two adjacent 16-byte blocks at `offset` keeps the length and
every byte from `offset + 32` on. -/
theorem splice2_frame (output A B : Bytes) (offset : Nat) (hA : A.length = 16)
    (hB : B.length = 16) (h : offset + 32 ≤ output.length) :
    (splice (splice output offset (offset + 16) A) (offset + 16)
      (offset + 32) B).length = output.length ∧
    ∀ k, offset + 32 ≤ k →
      (splice (splice output offset (offset + 16) A) (offset + 16)
        (offset + 32) B).getD k 0 = output.getD k 0 := by
  have hl1 : (splice output offset (offset + 16) A).length = output.length :=
    length_splice _ _ _ _ (by omega) (by omega) (by omega)
  constructor
  · rw [length_splice _ _ _ _ (by omega) (by rw [hl1]; omega) (by omega), hl1]
  · intro k hk
    rw [getD_splice_high _ _ _ _ _ (by omega) (by rw [hl1]; omega) (by omega)
      (by omega)]
    exact getD_splice_high _ _ _ _ _ (by omega) (by omega) (by omega) (by omega)

/-- Pass 1 keeps the buffer length and leaves every byte at or above
`offset + remaining - 32 - remaining % 32` unchanged. -/
theorem pass1go_frame (st : AEZState) (input : Bytes) :
    ∀ (remaining : Nat) (output X I_tmp : Bytes) (offset i : Nat),
      offset + remaining ≤ output.length →
      (pass1go st input output X I_tmp offset remaining i).1.length = output.length ∧
      ∀ k, offset + remaining - 32 - remaining % 32 ≤ k →
        (pass1go st input output X I_tmp offset remaining i).1.getD k 0 =
          output.getD k 0 := by
  intro remaining
  induction remaining using Nat.strong_induction_on with
  | _ remaining ih =>
    intro output X I_tmp offset i hlen
    by_cases h : remaining ≥ 64
    · rw [pass1go_step st input output X I_tmp offset remaining i h]
      obtain ⟨hsl, hsp⟩ := splice2_frame output (p1first st input I_tmp offset i)
        (p1second st input I_tmp offset i) offset
        (length_xorBytes1x16 _ _) (length_xorBytes1x16 _ _) (by omega)
      obtain ⟨ihl, ihp⟩ := ih (remaining - 32) (by omega) _
        (xorBytes1x16 (p1second st input I_tmp offset i) X)
        (if (i + 1) % 8 = 0 then doubleBlock I_tmp else I_tmp)
        (offset + 32) (i + 1) (by rw [hsl]; omega)
      constructor
      · rw [ihl, hsl]
      · intro k hk
        have hmod : (remaining - 32) % 32 = remaining % 32 := by omega
        rw [ihp k (by omega), hsp k (by omega)]
    · rw [pass1go, dif_neg h]
      exact ⟨rfl, fun k _ => rfl⟩

/-- Pass 2 keeps the buffer length and leaves every byte at or above
`offset + remaining - 32 - remaining % 32` unchanged. -/
theorem pass2go_frame (st : AEZState) :
    ∀ (remaining : Nat) (output Y S I_tmp : Bytes) (offset i : Nat),
      offset + remaining ≤ output.length →
      (pass2go st output Y S I_tmp offset remaining i).1.length = output.length ∧
      ∀ k, offset + remaining - 32 - remaining % 32 ≤ k →
        (pass2go st output Y S I_tmp offset remaining i).1.getD k 0 =
          output.getD k 0 := by
  intro remaining
  induction remaining using Nat.strong_induction_on with
  | _ remaining ih =>
    intro output Y S I_tmp offset i hlen
    by_cases h : remaining ≥ 64
    · rw [pass2go_step st output Y S I_tmp offset remaining i h]
      obtain ⟨hsl, hsp⟩ := splice2_frame output
        (p2blocks st output Y S I_tmp offset i).1
        (p2blocks st output Y S I_tmp offset i).2.1 offset
        (by simp [p2blocks, length_xorBytes1x16])
        (by simp [p2blocks, length_xorBytes1x16]) (by omega)
      obtain ⟨ihl, ihp⟩ := ih (remaining - 32) (by omega) _
        (p2blocks st output Y S I_tmp offset i).2.2 S
        (if (i + 1) % 8 = 0 then doubleBlock I_tmp else I_tmp)
        (offset + 32) (i + 1) (by rw [hsl]; omega)
      constructor
      · rw [ihl, hsl]
      · intro k hk
        have hmod : (remaining - 32) % 32 = remaining % 32 := by omega
        rw [ihp k (by omega), hsp k (by omega)]
    · rw [pass2go, dif_neg h]
      exact ⟨rfl, fun k _ => rfl⟩

theorem aez_core_pass1_frame (st : AEZState) (input dst : Bytes)
    (h : input.length ≤ dst.length) :
    (st.aez_core_pass1 input dst).1.length = dst.length ∧
    ∀ k, input.length - 32 - input.length % 32 ≤ k →
      (st.aez_core_pass1 input dst).1.getD k 0 = dst.getD k 0 := by
  unfold AEZState.aez_core_pass1
  have hf := pass1go_frame st input input.length dst zeroBlock
    (st.I.getD 1 []) 0 1 (by omega)
  exact ⟨hf.1, fun k hk => hf.2 k (by omega)⟩

theorem aez_core_pass2_frame (st : AEZState) (input output S : Bytes)
    (h : input.length ≤ output.length) :
    (st.aez_core_pass2 input output S).1.length = output.length ∧
    ∀ k, input.length - 32 - input.length % 32 ≤ k →
      (st.aez_core_pass2 input output S).1.getD k 0 = output.getD k 0 := by
  unfold AEZState.aez_core_pass2
  have hf := pass2go_frame st input.length output zeroBlock S
    (st.I.getD 1 []) 0 1 (by omega)
  exact ⟨hf.1, fun k hk => hf.2 k (by omega)⟩

/-- `aez_core` keeps the buffer length and never writes at or above
`|data| - 32 - |data| % 32`. -/
theorem aez_core_frame (st : AEZState) (delta data : Bytes) (direction : Nat)
    (dst : Bytes) (hlen : data.length ≤ dst.length) :
    (st.aez_core delta data direction dst).length = dst.length ∧
    ∀ k, data.length - 32 - data.length % 32 ≤ k →
      (st.aez_core delta data direction dst).getD k 0 = dst.getD k 0 := by
  by_cases h64 : data.length ≥ 64
  · have hred : st.aez_core delta data direction dst =
        (st.aez_core_pass2 data (st.aez_core_pass1 data dst).1
          (aez_core_S st delta data direction
            (aez_core_X st data (st.aez_core_pass1 data dst).2))).1 := by
      simp [AEZState.aez_core, h64]
    rw [hred]
    obtain ⟨h1l, h1p⟩ := aez_core_pass1_frame st data dst hlen
    obtain ⟨h2l, h2p⟩ := aez_core_pass2_frame st data (st.aez_core_pass1 data dst).1
      (aez_core_S st delta data direction
        (aez_core_X st data (st.aez_core_pass1 data dst).2))
      (by rw [h1l]; omega)
    constructor
    · rw [h2l, h1l]
    · intro k hk
      rw [h2p k hk, h1p k hk]
  · have hred : st.aez_core delta data direction dst = dst := by
      simp [AEZState.aez_core, h64]
    rw [hred]
    exact ⟨rfl, fun k _ => rfl⟩

/-- C8: `aez_core` (in both directions) modifies only
`dst[0 .. |data| - 32 - |data| % 32)`: the final `32 + |data| % 32` bytes
of the destination keep their previous contents, because the tail and
fragment writes go through `bytearray` slice copies that never reach
`dst`; for `32 ≤ |data| < 64` the buffer is left entirely unchanged. -/
theorem aez_core_untouched_tail (st : AEZState) (delta data : Bytes)
    (direction : Nat) (dst : Bytes) (h32 : 32 ≤ data.length)
    (hlen : dst.length = data.length) :
    (st.aez_core delta data direction dst).length = dst.length ∧
    (st.aez_core delta data direction dst).drop
        (data.length - 32 - data.length % 32) =
      dst.drop (data.length - 32 - data.length % 32) ∧
    (data.length < 64 → st.aez_core delta data direction dst = dst) := by
  obtain ⟨hl, hp⟩ := aez_core_frame st delta data direction dst (by omega)
  refine ⟨hl, ?_, ?_⟩
  · apply ext_getD (by simp [hl])
    intro j hj
    rw [getD_drop, getD_drop]
    exact hp _ (by omega)
  · intro h64
    apply ext_getD (by rw [hl])
    intro k hk
    exact hp k (by omega)

/-- Witness for C8 at a concrete state, 96-byte input and buffer. -/
theorem aez_core_untouched_tail_witness :
    (32 ≤ (List.replicate 96 (7 : Nat)).length ∧
      ((List.range 96).map (· % 256)).length = (List.replicate 96 (7 : Nat)).length) ∧
    ((AEZState.init blakeStub key48).aez_core zeroBlock (List.replicate 96 7) 1
        ((List.range 96).map (· % 256))).drop 64 =
      ((List.range 96).map (· % 256)).drop 64 :=
  ⟨⟨by decide, by simp⟩, by
    have h := (aez_core_untouched_tail (AEZState.init blakeStub key48) zeroBlock
      (List.replicate 96 7) 1 ((List.range 96).map (· % 256))
      (by simp) (by simp)).2.1
    simpa using h⟩

theorem length_xorBytes4x16 (a b c d : Bytes) :
    (xorBytes4x16 a b c d).length = 16 := by
  simp [xorBytes4x16]

theorem length_aesRounds (keys : List Nat) (rounds : Nat) (block : Bytes) :
    (aesRounds keys rounds block).length = 16 + (block.length - 16) := by
  simp [aesRounds, uint32be]
  omega

theorem length_AES4 (a : AESRound) (j i_vec l_vec src : Bytes) :
    (AES4 a j i_vec l_vec src).length = 16 := by
  simp [AES4, length_aesRounds, length_xorBytes4x16]

theorem length_AES10 (a : AESRound) (l_vec src : Bytes) :
    (AES10 a l_vec src).length = 16 := by
  simp [AES10, length_aesRounds, length_xorBytes1x16]

/-- `prfGo` keeps the destination length while it writes in bounds. -/
theorem prfGo_length (st : AEZState) (delta : Bytes) :
    ∀ (remaining : Nat) (dst ctr : Bytes) (off : Nat),
      off + remaining ≤ dst.length →
      (prfGo st delta dst ctr off remaining).length = dst.length := by
  intro remaining
  induction remaining using Nat.strong_induction_on with
  | _ remaining ih =>
    intro dst ctr off hlen
    by_cases h : remaining ≥ 16
    · have hstep : prfGo st delta dst ctr off remaining =
          prfGo st delta
            (splice dst off (off + 16)
              (AES10 st.aes (st.L.getD 3 []) (xorBytes1x16 delta ctr)))
            (ctrInc ctr) (off + 16) (remaining - 16) := by
        rw [prfGo, dif_pos h]
      rw [hstep]
      have hsl : (splice dst off (off + 16)
          (AES10 st.aes (st.L.getD 3 []) (xorBytes1x16 delta ctr))).length =
          dst.length :=
        length_splice _ _ _ _ (by omega) (by omega) (by rw [length_AES10]; omega)
      rw [ih (remaining - 16) (by omega) _ _ (off + 16) (by rw [hsl]; omega), hsl]
    · by_cases h0 : remaining > 0
      · have hstep : prfGo st delta dst ctr off remaining =
            splice dst off (off + remaining)
              ((AES10 st.aes (st.L.getD 3 []) (xorBytes1x16 delta ctr)).take
                remaining) := by
          rw [prfGo, dif_neg h, if_pos h0]
        rw [hstep]
        exact length_splice _ _ _ _ (by omega) (by omega)
          (by rw [List.length_take, length_AES10]; omega)
      · rw [prfGo, dif_neg h, if_neg h0]

theorem length_aez_prf (st : AEZState) (delta : Bytes) (tau : Nat) (dst : Bytes)
    (h : tau ≤ dst.length) :
    (st.aez_prf delta tau dst).length = dst.length :=
  prfGo_length st delta tau dst zeroBlock 0 (by omega)

/-- The two halves threaded through the `aez_tiny` Feistel loop are always
16 bytes long when they start that way. -/
theorem tinyLoop_lengths (F : Int → Bytes → Bytes) (step : Int) :
    ∀ (c : Nat) (L R : Bytes) (j : Int), L.length = 16 → R.length = 16 →
      (tinyLoop F step c (L, R, j)).1.length = 16 ∧
      (tinyLoop F step c (L, R, j)).2.1.length = 16 := by
  intro c
  induction c with
  | zero => intro L R j hL hR; exact ⟨hL, hR⟩
  | succ n ihc =>
    intro L R j hL hR
    exact ihc _ _ _ (length_xorBytes1x16 _ _) (length_xorBytes1x16 _ _)

theorem length_recomb (n : Nat) (Lf Rf : Bytes) (hn : n < 32)
    (hL : Lf.length = 16) (hR : Rf.length = 16) :
    (recomb n Lf Rf).length = n := by
  unfold recomb
  by_cases h : n % 2 = 1
  · simp [h]
  · simp [h, hL, hR]
    omega

theorem length_tinyL0 (data : Bytes) (h1 : 1 ≤ data.length)
    (h2 : data.length < 32) : (tinyL0 data).length = 16 := by
  simp [tinyL0]
  omega

theorem length_tinyR0 (data : Bytes) (h1 : 1 ≤ data.length)
    (h2 : data.length < 32) : (tinyR0 data).length = 16 := by
  unfold tinyR0
  by_cases h : data.length % 2 = 1
  · simp [h]
  · simp [h]
    omega

theorem length_ite_set_splice (c : Prop) [Decidable c] (dst out : Bytes)
    (n v : Nat) (hout : out.length = n) (hn : n ≤ dst.length) :
    (if c then (splice dst 0 n out).set 0 v else splice dst 0 n out).length =
      dst.length := by
  have hs : (splice dst 0 n out).length = dst.length :=
    length_splice _ _ _ _ (by omega) hn (by omega)
  by_cases hc : c <;> simp [hc, hs]

theorem length_aez_tiny (st : AEZState) (delta data : Bytes) (direction : Nat)
    (dst : Bytes) (h1 : 1 ≤ data.length) (h2 : data.length < 32)
    (hd : data.length ≤ dst.length) :
    (st.aez_tiny delta data direction dst).length = dst.length := by
  unfold AEZState.aez_tiny
  simp only []
  refine length_ite_set_splice _ _ _ _ _ ?_ hd
  have hL1 : (if direction ≠ 0 ∧ data.length < 16 then
      (tinyL0 data).set 0 ((tinyL0 data).getD 0 0 ^^^
        whitenW st delta data.length data)
    else tinyL0 data).length = 16 := by
    by_cases hdir : direction ≠ 0 ∧ data.length < 16 <;>
      simp [hdir, length_tinyL0 data h1 h2]
  obtain ⟨hsl, hsr⟩ := tinyLoop_lengths _ _ _ _ _ _ hL1 (length_tinyR0 data h1 h2)
  exact length_recomb data.length _ _ h2 hsl hsr

theorem length_aez_core (st : AEZState) (delta data : Bytes) (direction : Nat)
    (dst : Bytes) (hlen : data.length ≤ dst.length) :
    (st.aez_core delta data direction dst).length = dst.length :=
  (aez_core_frame st delta data direction dst hlen).1

theorem length_decipher (st : AEZState) (delta data dst : Bytes)
    (h : data.length ≤ dst.length) :
    (st.decipher delta data dst).length = dst.length := by
  unfold AEZState.decipher
  by_cases h0 : data.length = 0
  · rw [if_pos h0]
  · rw [if_neg h0]
    by_cases h32 : data.length < 32
    · rw [if_pos h32]
      exact length_aez_tiny st delta data 1 dst (by omega) h32 h
    · rw [if_neg h32]
      exact length_aez_core st delta data 1 dst h

theorem lor_eq_zero_iff (a b : Nat) : a ||| b = 0 ↔ a = 0 ∧ b = 0 := by
  constructor
  · intro h
    have hbit : ∀ i, a.testBit i = false ∧ b.testBit i = false := by
      intro i
      have hi := congrArg (fun t => t.testBit i) h
      simpa [Nat.testBit_lor] using hi
    constructor
    · apply Nat.eq_of_testBit_eq
      intro i
      simp [(hbit i).1]
    · apply Nat.eq_of_testBit_eq
      intro i
      simp [(hbit i).2]
  · rintro ⟨rfl, rfl⟩
    rfl

theorem tagOrGo_eq_ok (x : Bytes) :
    ∀ (count : Nat) (base : Int) (acc : Nat), 0 ≤ base →
      base.toNat + count ≤ x.length →
      ∃ r, tagOrGo x base acc count = .ok r ∧
        (r = 0 ↔ acc = 0 ∧ ∀ j, j < count → x.getD (base.toNat + j) 0 = 0) := by
  intro count
  induction count with
  | zero =>
    intro base acc h0 hb
    exact ⟨acc, rfl, by simp⟩
  | succ n ihc =>
    intro base acc h0 hb
    have h1 : ¬ (base < 0) := by omega
    have h2 : 0 ≤ base ∧ base < (x.length : Int) := by
      constructor <;> omega
    have hpi : pyIndex x base = .ok (x.getD base.toNat 0) := by
      simp [pyIndex, h1, h2]
    obtain ⟨r, hr, hiff⟩ := ihc (base + 1) (acc ||| x.getD base.toNat 0)
      (by omega) (by omega)
    refine ⟨r, ?_, ?_⟩
    · simp only [tagOrGo, hpi]
      exact hr
    · rw [hiff, lor_eq_zero_iff]
      constructor
      · rintro ⟨⟨ha, hv⟩, hall⟩
        refine ⟨ha, fun j hj => ?_⟩
        cases j with
        | zero => simpa using hv
        | succ jj =>
          have hidx : (base + 1).toNat + jj = base.toNat + (jj + 1) := by omega
          have := hall jj (by omega)
          rwa [hidx] at this
      · rintro ⟨ha, hall⟩
        refine ⟨⟨ha, by simpa using hall 0 (by omega)⟩, fun j hj => ?_⟩
        have hidx : (base + 1).toNat + j = base.toNat + (j + 1) := by omega
        rw [hidx]
        exact hall (j + 1) (by omega)

/-- C9: for every key, AD list and ciphertext of at least 32 bytes,
`_aez_decrypt(key, ad, 4, C)` never returns `None`: the last four bytes of
the zero-initialised buffer lie in the region `aez_core` never writes, so
the OR-reduced tag check passes and a plaintext of length `|C| - 4` is
returned, regardless of the key. -/
theorem aez_decrypt_total_ge32 (blake2b48 : Bytes → Bytes) (key : Bytes)
    (ad : List Bytes) (C : Bytes) (h32 : 32 ≤ C.length) :
    ∃ p, aez_decrypt blake2b48 key ad 4 C = .ok (some p) ∧
      p.length = C.length - 4 := by
  have hne : ¬ (C.length = 4) := by omega
  have hred : aez_decrypt blake2b48 key ad 4 C =
      (match tagOrGo ((AEZState.init blake2b48 key).decipher
          ((AEZState.init blake2b48 key).aez_hash none ad (4 * 8)) C
          (List.replicate C.length 0)) ((C.length : Int) - 4) 0 4 with
       | .error e => .error e
       | .ok mismatch =>
         if mismatch ≠ 0 then .ok none
         else .ok (some (pySliceTo ((AEZState.init blake2b48 key).decipher
            ((AEZState.init blake2b48 key).aez_hash none ad (4 * 8)) C
            (List.replicate C.length 0)) ((C.length : Int) - 4)))) := by
    unfold aez_decrypt
    simp only []
    rw [if_neg hne]
    norm_cast
  have hxcore : (AEZState.init blake2b48 key).decipher
      ((AEZState.init blake2b48 key).aez_hash none ad (4 * 8)) C
      (List.replicate C.length 0) =
      (AEZState.init blake2b48 key).aez_core
        ((AEZState.init blake2b48 key).aez_hash none ad (4 * 8)) C 1
        (List.replicate C.length 0) := by
    unfold AEZState.decipher
    rw [if_neg (by omega), if_neg (by omega)]
  have hxlen : ((AEZState.init blake2b48 key).decipher
      ((AEZState.init blake2b48 key).aez_hash none ad (4 * 8)) C
      (List.replicate C.length 0)).length = C.length := by
    rw [length_decipher _ _ _ _ (by simp)]
    simp
  have hzero : ∀ j, j < 4 →
      ((AEZState.init blake2b48 key).decipher
        ((AEZState.init blake2b48 key).aez_hash none ad (4 * 8)) C
        (List.replicate C.length 0)).getD (((C.length : Int) - 4).toNat + j) 0 = 0 := by
    intro j hj
    rw [hxcore]
    obtain ⟨_, hp⟩ := aez_core_frame (AEZState.init blake2b48 key)
      ((AEZState.init blake2b48 key).aez_hash none ad (4 * 8)) C 1
      (List.replicate C.length 0) (by simp)
    rw [hp _ (by omega)]
    exact getD_replicate_zero _ _
  obtain ⟨r, hr, hiff⟩ := tagOrGo_eq_ok
    ((AEZState.init blake2b48 key).decipher
      ((AEZState.init blake2b48 key).aez_hash none ad (4 * 8)) C
      (List.replicate C.length 0)) 4 ((C.length : Int) - 4) 0
    (by omega) (by rw [hxlen] at *; omega)
  have hr0 : r = 0 := hiff.2 ⟨rfl, hzero⟩
  subst hr0
  refine ⟨pySliceTo ((AEZState.init blake2b48 key).decipher
      ((AEZState.init blake2b48 key).aez_hash none ad (4 * 8)) C
      (List.replicate C.length 0)) ((C.length : Int) - 4), ?_, ?_⟩
  · rw [hred, hr]
    simp
  · unfold pySliceTo
    rw [if_neg (by omega)]
    rw [List.length_take, hxlen]
    omega

theorem aez_decrypt_total_ge32_witness :
    32 ≤ (List.replicate 32 3 : Bytes).length ∧
    ∃ p, aez_decrypt blakeStub key48 [] 4 (List.replicate 32 3) = .ok (some p) ∧
      p.length = (List.replicate 32 3 : Bytes).length - 4 :=
  ⟨by decide, aez_decrypt_total_ge32 blakeStub key48 [] (List.replicate 32 3) (by decide)⟩

/-- The OR-accumulating tag loop of `_aez_decrypt`'s `|C| = tau` branch is
zero exactly when the XOR of every compared byte pair is zero. -/
theorem tagMismatch_foldl_eq_zero (x c : Bytes) :
    ∀ (n : Nat) (acc : Nat),
      (List.range n).foldl (fun m i => m ||| (x.getD i 0 ^^^ c.getD i 0)) acc = 0 ↔
        acc = 0 ∧ ∀ i, i < n → x.getD i 0 ^^^ c.getD i 0 = 0 := by
  intro n
  induction n with
  | zero => intro acc; simp
  | succ m ih =>
    intro acc
    rw [List.range_succ, List.foldl_append]
    simp only [List.foldl_cons, List.foldl_nil]
    rw [lor_eq_zero_iff, ih]
    constructor
    · rintro ⟨⟨ha, hall⟩, hm⟩
      refine ⟨ha, fun i hi => ?_⟩
      by_cases him : i = m
      · subst him; exact hm
      · exact hall i (by omega)
    · rintro ⟨ha, hall⟩
      exact ⟨⟨ha, fun i hi => hall i (by omega)⟩, hall m (by omega)⟩

theorem tagMismatchEq_eq_zero_iff (x c : Bytes) (tau : Nat)
    (hx : x.length = tau) (hc : c.length = tau) :
    tagMismatchEq x c tau = 0 ↔ x = c := by
  unfold tagMismatchEq
  rw [tagMismatch_foldl_eq_zero]
  constructor
  · rintro ⟨-, h⟩
    refine ext_getD (by omega) fun i hi => ?_
    exact Nat.xor_eq_zero.mp (h i (by omega))
  · rintro rfl
    exact ⟨rfl, fun i hi => by simp⟩

theorem drop_all_zero_iff (xs : Bytes) (k : Nat) :
    ((xs.drop k).all (fun b => b = 0)) = true ↔
      ∀ j, j < xs.length - k → xs.getD (k + j) 0 = 0 := by
  rw [List.all_eq_true]
  constructor
  · intro h j hj
    have hjlt : j < (xs.drop k).length := by simp; omega
    have hx := h _ (List.getElem_mem hjlt)
    rw [decide_eq_true_eq] at hx
    rw [← getD_drop, List.getD_eq_getElem _ _ hjlt]
    exact hx
  · intro h b hb
    rw [List.mem_iff_getElem] at hb
    obtain ⟨j, hjlt, rfl⟩ := hb
    rw [decide_eq_true_eq, ← List.getD_eq_getElem _ 0 hjlt, getD_drop]
    exact h j (by simp at hjlt; omega)

/-- The `|C| = tau` branch of `_aez_decrypt` agrees with the spec driver's
PRF-comparison form once the stream and ciphertext have length `tau`. -/
theorem decrypt_branch1_core (x C : Bytes) (tau : Nat)
    (hx : x.length = tau) (hc : C.length = tau) :
    (if tagMismatchEq x C tau ≠ 0 then (.ok none : Except PyErr (Option Bytes))
      else .ok (some [])) =
    .ok (if x = C then some [] else none) := by
  by_cases hm : tagMismatchEq x C tau = 0
  · rw [if_neg (not_not_intro hm),
      if_pos ((tagMismatchEq_eq_zero_iff x C tau hx hc).mp hm)]
  · rw [if_pos hm,
      if_neg (fun hxc => hm ((tagMismatchEq_eq_zero_iff x C tau hx hc).mpr hxc))]

/-- The `|C| ≠ tau` branch of `_aez_decrypt` agrees with the spec driver's
zero-tail check and truncation whenever `tau < |C|` (all tag indices are
then in range, so no Python indexing surprises occur). -/
theorem decrypt_branch2_core (x C : Bytes) (tau : Nat)
    (hxlen : x.length = C.length) (hgt : tau < C.length) :
    ((match tagOrGo x ((C.length : Int) - tau) 0 tau with
     | .error e => .error e
     | .ok mismatch =>
       if mismatch ≠ 0 then .ok none
       else .ok (some (pySliceTo x ((C.length : Int) - tau)))) :
        Except PyErr (Option Bytes)) =
    .ok (if (x.drop (x.length - tau)).all (fun b => b = 0) then
      some (x.take (C.length - tau)) else none) := by
  obtain ⟨r, hr, hiff⟩ := tagOrGo_eq_ok x tau ((C.length : Int) - tau) 0
    (by omega) (by omega)
  simp only [hr]
  by_cases hrz : r = 0
  · have hcond : ((x.drop (x.length - tau)).all (fun b => b = 0)) = true := by
      rw [drop_all_zero_iff]
      intro j hj
      have hz := (hiff.mp hrz).2 j (by omega)
      have hidx : ((C.length : Int) - tau).toNat + j = (x.length - tau) + j := by
        omega
      rwa [hidx] at hz
    rw [if_neg (not_not_intro hrz), if_pos hcond]
    have ht : ((C.length : Int) - tau).toNat = C.length - tau := by omega
    unfold pySliceTo
    rw [if_neg (by omega : ¬ ((C.length : Int) - (tau : Int)) < 0), ht]
  · have hcond : ¬ (((x.drop (x.length - tau)).all (fun b => b = 0)) = true) := by
      intro hc
      apply hrz
      apply hiff.mpr
      refine ⟨rfl, fun j hj => ?_⟩
      have hz := (drop_all_zero_iff x (x.length - tau)).mp hc j (by omega)
      have hidx : (x.length - tau) + j = ((C.length : Int) - tau).toNat + j := by
        omega
      rwa [hidx] at hz
    rw [if_pos hrz, if_neg hcond]

/-- C2's counterexample: for `tau = 1` and the empty ciphertext, the spec
driver returns the empty plaintext, but the code's tag loop evaluates
`x[len(C) - tau + i] = x[-1]` on the empty buffer `x` and raises
`IndexError`, so `_aez_decrypt` does not behave as the spec driver there. -/
theorem aez_decrypt_spec_mismatch :
    aez_decrypt blakeStub key48 [] 1 [] ≠
      .ok (aez_decrypt_spec blakeStub key48 [] 1 []) := by
  decide

/-- C2 (amended to `tau ≤ |C|`): whenever the ciphertext is at least as
long as the tag, `_aez_decrypt(key, ad, tau, C)` raises nothing and
returns exactly what the spec's decrypt driver prescribes: for
`|C| = tau`, the empty plaintext when the `tau`-byte PRF stream under
`delta = aez_hash(None, ad, 8 tau)` equals `C` and `None` otherwise; for
`|C| > tau`, `None` when the OR-reduction of the last `tau` bytes of
`x = decipher(delta, C)` is nonzero and `x[0..|C|-tau]` otherwise. -/
theorem aez_decrypt_matches_spec (blake2b48 : Bytes → Bytes) (key : Bytes)
    (ad : List Bytes) (tau : Nat) (C : Bytes) (h : tau ≤ C.length) :
    aez_decrypt blake2b48 key ad tau C =
      .ok (aez_decrypt_spec blake2b48 key ad tau C) := by
  unfold aez_decrypt aez_decrypt_spec
  simp only []
  by_cases heq : C.length = tau
  · rw [if_pos heq, if_pos heq, heq]
    exact decrypt_branch1_core _ C tau
      (by rw [length_aez_prf _ _ _ _ (by simp)]; simp) heq
  · rw [if_neg heq, if_neg heq]
    exact decrypt_branch2_core _ C tau
      (by rw [length_decipher _ _ _ _ (by simp)]; simp) (by omega)

theorem aez_decrypt_matches_spec_witness :
    1 ≤ ([0, 0, 0, 0, 0] : Bytes).length ∧
    aez_decrypt blakeStub key48 [] 1 [0, 0, 0, 0, 0] =
      .ok (aez_decrypt_spec blakeStub key48 [] 1 [0, 0, 0, 0, 0]) :=
  ⟨by decide, aez_decrypt_matches_spec blakeStub key48 [] 1 [0, 0, 0, 0, 0] (by decide)⟩
